import Mathlib

/-!
Verification development for the CRDS reference-file selection library:
a shallow embedding of `src/lib/selectors.py` and `src/lib/rmap.py`
(Python 2) together with theorems about the embedded operations.

Conventions of the embedding:
* Python strings are Lean `String`s; Python 2 compares strings byte-wise,
  which for the ASCII data of this library coincides with the
  code-point-wise lexicographic order `pyLt` / `pyLe` defined below.
* Python floats are modelled as `Rat` (the numeric values appearing in
  selections and queries are exact decimals).
* A Python dict is modelled as an association list with distinct keys;
  `List.lookup` models `dict[k]` / `dict.get(k)`.
* Exceptions are modelled by `Except`: the `LookupError` subclasses of
  `selectors.py` (including Python's built-in `KeyError` / `IndexError`,
  which are also `LookupError` subclasses) form `LookupErr`.
* A nested selector is represented by its `choose` bound to the selector
  (`Choice.sel`), which is the only capability `get_choice` and the
  match fall-through logic use; a terminal string choice is `Choice.term`.
-/

namespace Crds

/-- Strict code-point-wise lexicographic order on character lists:
the order Python 2 uses for `str` comparison (byte order; identical to
this on ASCII). -/
def charListLt : List Char → List Char → Bool
  | [], [] => false
  | [], _ :: _ => true
  | _ :: _, [] => false
  | a :: as, b :: bs =>
    if a.toNat < b.toNat then true
    else if b.toNat < a.toNat then false
    else charListLt as bs

/-- Python 2 `a < b` on strings. -/
def pyLt (a b : String) : Bool := charListLt a.data b.data

/-- Python 2 `a <= b` on strings. -/
def pyLe (a b : String) : Bool := pyLt a b || a == b

/-- The `LookupError` family of exceptions raised during `choose`:
the five `selectors.py` subclasses (`MatchingError`, `AmbiguousMatchError`,
`MissingParameterError`, `BadValueError`, `UseAfterError`) plus Python's
built-in `KeyError` and `IndexError`, which are also `LookupError`
subclasses (raised by `header[x]` and list indexing). -/
inductive LookupErr where
  | matchingError (msg : String)
  | ambiguousMatchError (msg : String)
  | missingParameterError (msg : String)
  | badValueError (msg : String)
  | useAfterError (msg : String)
  | keyError (msg : String)
  | indexError (msg : String)
deriving DecidableEq, Repr

instance {ε α : Type} [DecidableEq ε] [DecidableEq α] :
    DecidableEq (Except ε α) := fun a b =>
  match a, b with
  | .ok x, .ok y =>
    if h : x = y then .isTrue (by rw [h]) else .isFalse (by simp [h])
  | .ok _, .error _ => .isFalse (by simp)
  | .error _, .ok _ => .isFalse (by simp)
  | .error x, .error y =>
    if h : x = y then .isTrue (by rw [h]) else .isFalse (by simp [h])

/-- Python `str(exc)`: the message carried by the exception. -/
def LookupErr.msg : LookupErr → String
  | .matchingError m => m
  | .ambiguousMatchError m => m
  | .missingParameterError m => m
  | .badValueError m => m
  | .useAfterError m => m
  | .keyError m => m
  | .indexError m => m

/-- A runtime header: a dict from parameter names to string values
(the string-valued parameters consumed by Match and UseAfter selectors). -/
abbrev Header := List (String × String)

/-- A selection value (`selection[1]` in `Selector.get_choice`): either a
terminal reference filename or a nested selector.  A nested selector is
represented by its `choose` method bound to the selector object, the only
capability `get_choice` and the `MatchingSelector.choose` fall-through
logic use. -/
inductive Choice where
  | term (s : String)
  | sel (f : Header → Except LookupErr String)

instance : Inhabited Choice := ⟨.term ""⟩

/-- Decidable test used to state hypotheses about terminal-only selectors. -/
def Choice.isTerm : Choice → Bool
  | .term _ => true
  | .sel _ => false

/-- Mirror of `Selector.get_choice`: a nested selector recurses
(`choice.choose(header)`), a terminal string is returned as-is. -/
def getChoice (c : Choice) (header : Header) : Except LookupErr String :=
  match c with
  | .term s => .ok s
  | .sel f => f header

/-- A field of a match tuple as it appears in an rmap selection key:
either a plain string (which `matcher()` further classifies as wildcard,
inequality, or literal) or a tuple of strings (compiled by `RegexMatcher`
into the anchored alternation `^k1$|^k2$|...`). -/
inductive MKey where
  | str (s : String)
  | tup (ss : List String)
deriving DecidableEq, Repr

/-- Digit-string to natural number (used by the inequality-matcher's
number parser). -/
def digitsVal (cs : List Char) : Nat :=
  cs.foldl (fun acc c => acc * 10 + (c.toNat - 48)) 0

def isDigit (c : Char) : Bool := 48 ≤ c.toNat && c.toNat ≤ 57

/-- Parse a decimal literal with optional sign, fraction and exponent into
an exact rational, mirroring the regex
`[-+]?[0-9]*\.?[0-9]+([eE][-+]?[0-9]+)?` of `InequalityMatcher` and
Python's `float()` on such literals (floats are modelled as exact
rationals here).  Returns `none` when the text is not such a literal. -/
def parseRat (s : String) : Option Rat :=
  let (sgn, rest) :=
    match s.data with
    | '-' :: r => ((-1 : Rat), r)
    | '+' :: r => ((1 : Rat), r)
    | r => ((1 : Rat), r)
  let intPart := rest.takeWhile isDigit
  let rest2 := rest.dropWhile isDigit
  let (fracPart, rest3) :=
    match rest2 with
    | '.' :: r => (r.takeWhile isDigit, r.dropWhile isDigit)
    | r => ([], r)
  let (expSgn, expDigits, rest4) :=
    match rest3 with
    | 'e' :: '-' :: r => ((-1 : Int), r.takeWhile isDigit, r.dropWhile isDigit)
    | 'e' :: '+' :: r => ((1 : Int), r.takeWhile isDigit, r.dropWhile isDigit)
    | 'e' :: r => ((1 : Int), r.takeWhile isDigit, r.dropWhile isDigit)
    | 'E' :: '-' :: r => ((-1 : Int), r.takeWhile isDigit, r.dropWhile isDigit)
    | 'E' :: '+' :: r => ((1 : Int), r.takeWhile isDigit, r.dropWhile isDigit)
    | 'E' :: r => ((1 : Int), r.takeWhile isDigit, r.dropWhile isDigit)
    | r => ((1 : Int), ([] : List Char), r)
  if intPart.isEmpty && fracPart.isEmpty then none
  else if !rest4.isEmpty then none
  else if (rest3 ≠ [] && expDigits.isEmpty) then none
  else
    let mantissa : Rat :=
      (digitsVal intPart : Rat) +
        (digitsVal fracPart : Rat) / ((10 : Rat) ^ fracPart.length)
    let scaled : Rat :=
      if expSgn < 0 then mantissa / ((10 : Rat) ^ digitsVal expDigits)
      else mantissa * ((10 : Rat) ^ digitsVal expDigits)
    some (sgn * scaled)

/-- Inequality match (`InequalityMatcher.match`): parse the operator and
bound from the key, convert the header value with `float()`, and compare.
A value that `float()` cannot parse raises `ValueError` in Python; that
case is outside the LookupError-family scope of the claims and is
modelled as a mismatch. -/
def ineqStatus (key value : String) : Int :=
  let (opGe, opLe, opGt, rest) :=
    match key.data with
    | '>' :: '=' :: r => (true, false, false, r)
    | '<' :: '=' :: r => (false, true, false, r)
    | '>' :: r => (false, false, true, r)
    | '<' :: r => (false, false, false, r)
    | r => (false, false, false, r)
  let rest := rest.dropWhile (fun c => c = ' ')
  match parseRat (String.mk rest), parseRat value with
  | some bound, some v =>
    if opGe then (if v ≥ bound then 1 else -1)
    else if opLe then (if v ≤ bound then 1 else -1)
    else if opGt then (if v > bound then 1 else -1)
    else (if v < bound then 1 else -1)
  | _, _ => -1

/-- Mirror of the `matcher()` factory combined with each `Matcher`
subclass's `match` method: tuple keys behave as `RegexMatcher`
(anchored alternation of the literal alternatives), `"*"` as
`WildcardMatcher` (always 0), keys starting with `>` or `<` as
`InequalityMatcher`, and any other string as the exact-equality
`Matcher`.  Returns 1 (match), 0 (don't care) or -1 (no match). -/
def matcherStatus (k : MKey) (value : String) : Int :=
  match k with
  | .tup ss => if ss.contains value then 1 else -1
  | .str s =>
    if s = "*" then 0
    else if (match s.data with
             | c :: _ => c = '>' || c = '<'
             | [] => false) then ineqStatus s value
    else if s = value then 1 else -1

/-- The Match selector (`MatchingSelector`).  `rawParameters` is the
parameter list as written (a leading `*` marks an optional parameter,
stripped by `setup_parameters`); `selections` is the match-tuple-to-choice
dict after `fix_simple_keys` (which only wraps bare keys into 1-tuples,
a no-op under this typed representation) and `do_substitutions` (whose
rewriting is already reflected in the stored keys; the claims under
study all use an empty `substitutions` header). -/
structure MatchingSelector where
  rawParameters : List String
  selections : List (List MKey × Choice)

/-- Strip the optional-marker `*` prefix (`setup_parameters`). -/
def stripStar (p : String) : String :=
  match p.data with
  | '*' :: r => String.mk r
  | _ => p

/-- The stripped parameter-name list (`self._parameters`). -/
def MatchingSelector.parameters (m : MatchingSelector) : List String :=
  m.rawParameters.map stripStar

/-- The `self._required` dict built by `setup_parameters`: stripped name
to required flag (no leading `*`). -/
def setupRequired (raw : List String) : List (String × Bool) :=
  raw.map (fun p =>
    match p.data with
    | '*' :: r => (String.mk r, false)
    | _ => (p, true))

/-- Look up the required flag for a (stripped) parameter name.  Later
assignments overwrite earlier ones in the Python dict, hence the reversed
lookup; the default is never reached for names drawn from the parameter
list itself. -/
def MatchingSelector.requiredOf (m : MatchingSelector) (p : String) : Bool :=
  (List.lookup p (setupRequired m.rawParameters).reverse).getD true

/-- The strings a match-tuple field contributes to `get_value_map`:
a plain key contributes itself, a tuple key each alternative. -/
def keyFieldValues : MKey → List String
  | .str s => [s]
  | .tup ss => ss

/-- The value set `get_value_map` computes for parameter position `i`
(membership is what `validate_query` tests; the sorting and
de-duplication performed by the source do not affect membership).
Out-of-range fields would raise `ValueError` at construction time in the
source (`get_value_map`); selectors in scope have full-length keys. -/
def MatchingSelector.valueMapAt (m : MatchingSelector) (i : Nat) : List String :=
  (m.selections.map (fun sel => keyFieldValues (sel.1.getD i (.str "")))).flatten

/-- The position `get_value_map` associates with parameter name `p`:
`vmap[fitsvar]` is rebuilt at each enumerate step, so for duplicated
names the last index wins. -/
def MatchingSelector.lastIndexOf (m : MatchingSelector) (p : String) : Option Nat :=
  ((m.parameters.enum.filter (fun ip => ip.2 = p)).reverse.head?).map (fun ip => ip.1)

/-- The declared values for parameter `p` (`self._value_map[fitsvar]`). -/
def MatchingSelector.valueMap (m : MatchingSelector) (p : String) : List String :=
  match m.lastIndexOf p with
  | some i => m.valueMapAt i
  | none => []

/-- Recursion of `validate_query` over the parameter list: the first
parameter that is required and missing raises `MissingParameterError`;
the first that is required, present, and whose value is neither among the
declared values nor covered by a declared `*` raises `BadValueError`. -/
def validate_queryAux (m : MatchingSelector) (header : Header) :
    List String → Except LookupErr Unit
  | [] => .ok ()
  | p :: ps =>
    match List.lookup p header with
    | some v =>
      if m.requiredOf p && !(m.valueMap p).contains v &&
          !(m.valueMap p).contains "*" then
        .error (.badValueError ("Key " ++ p ++ "=" ++ v ++
          " not in valid values"))
      else validate_queryAux m header ps
    | none =>
      if m.requiredOf p then
        .error (.missingParameterError
          ("Required parameter '" ++ p ++ "' is missing."))
      else validate_queryAux m header ps

/-- Mirror of `MatchingSelector.validate_query`. -/
def MatchingSelector.validate_query (m : MatchingSelector) (header : Header) :
    Except LookupErr Unit :=
  validate_queryAux m header m.parameters

/-- Mirror of `header.get(parkey, "NOT PRESENT")` in `_winnow`. -/
def headerGetDefault (header : Header) (p : String) : String :=
  (List.lookup p header).getD "NOT PRESENT"

/-- One `_winnow` step for one bound parameter (position `i`, required
flag `req`, header value `value`) over the remaining weighted cases:
a case whose matcher returns -1 is removed when the parameter is
required and kept untouched when it is optional; otherwise the match
status (1 or 0) is subtracted from the case's weight. -/
def winnowParamCase (req : Bool) (i : Nat) (value : String)
    (mw : (List MKey × Choice) × Int) :
    Option ((List MKey × Choice) × Int) :=
  if matcherStatus (mw.1.1.getD i (.str "")) value = -1 then
    (if req then none else some mw)
  else some (mw.1, mw.2 - matcherStatus (mw.1.1.getD i (.str "")) value)

def winnowParam (req : Bool) (i : Nat) (value : String) :
    List ((List MKey × Choice) × Int) → List ((List MKey × Choice) × Int) :=
  List.filterMap (winnowParamCase req i value)

/-- The parameter loop of `_winnow`, binding parameters in order starting
at position `i`. -/
def winnowGo (m : MatchingSelector) (header : Header) :
    Nat → List String → List ((List MKey × Choice) × Int) →
      List ((List MKey × Choice) × Int)
  | _, [], cases => cases
  | i, p :: ps, cases =>
    winnowGo m header (i + 1) ps
      (winnowParam (m.requiredOf p) i (headerGetDefault header p) cases)

/-- Mirror of `MatchingSelector._winnow`: every case starts at weight 0;
the survivors are returned with their final weights (the source's
`(weights, remaining)` pair, combined). -/
def MatchingSelector.winnow (m : MatchingSelector) (header : Header) :
    List ((List MKey × Choice) × Int) :=
  winnowGo m header 0 m.parameters (m.selections.map (fun s => (s, 0)))

/-- First-occurrence de-duplication of the weight list (the distinct keys
of the source's `candidates` dict, in insertion order). -/
def dedupAcc : List Int → List Int → List Int
  | _, [] => []
  | seen, x :: xs =>
    if seen.contains x then dedupAcc seen xs
    else x :: dedupAcc (x :: seen) xs

/-- Mirror of `MatchingSelector._rank_candidates`: group the surviving
cases by weight and sort the groups by weight ascending (lowest weight is
the best match; the source sorts `(weight, tuple)` pairs, and distinct
groups have distinct weights, so this is a sort by weight). -/
def rank_candidates (cases : List ((List MKey × Choice) × Int)) :
    List (Int × List (List MKey × Choice)) :=
  let ws := dedupAcc [] (cases.map (fun c => c.2))
  let groups := ws.map (fun w =>
    (w, (cases.filter (fun c => c.2 == w)).map (fun c => c.1)))
  List.insertionSort (fun a b => a.1 ≤ b.1) groups

/-- The candidate iteration of `MatchingSelector.choose` over the groups
yielded (in ranked order) by `_winnowing_match`: a group with more than
one equivalently-weighted case raises `AmbiguousMatchError` immediately;
a single terminal case is returned; a single nested-selector case is
tried, and a `LookupError`-family failure falls through to the next-best
group; exhaustion raises `MatchingError`.  (`_rank_candidates` never
produces an empty group - see `rank_candidates_groups_ne` - so the
empty-group branch is dead code needed only for totality.) -/
def chooseGroups (header : Header) :
    List (Int × List (List MKey × Choice)) → Except LookupErr String
  | [] => .error (.matchingError "No match.")
  | (_, group) :: rest =>
    if group.length > 1 then .error (.ambiguousMatchError "Ambiguous match.")
    else
      match group with
      | [] => .error (.matchingError "No match.")
      | (_, c) :: _ =>
        match c with
        | .term s => .ok s
        | .sel f =>
          match f header with
          | .ok r => .ok r
          | .error _ => chooseGroups header rest

/-- Mirror of `MatchingSelector.choose`: validate the query, then iterate
the ranked candidate groups from best to worst. -/
def MatchingSelector.choose (m : MatchingSelector) (header : Header) :
    Except LookupErr String :=
  match m.validate_query header with
  | .error e => .error e
  | .ok _ => chooseGroups header (rank_candidates (m.winnow header))

/-- The per-parameter survival test of `_winnow`, stated as a predicate of
a single case over the parameter suffix `ps` starting at position `i`:
the case survives iff no field has a -1 match on a required parameter. -/
def survivesFrom (m : MatchingSelector) (header : Header) :
    Nat → List String → List MKey → Bool
  | _, [], _ => true
  | i, p :: ps, ks =>
    (!(matcherStatus (ks.getD i (.str "")) (headerGetDefault header p) == -1
        && m.requiredOf p))
      && survivesFrom m header (i + 1) ps ks

/-- The total weight contribution of the parameter suffix `ps` starting
at position `i` for one case: statuses of -1 contribute nothing (whether
the parameter is required or optional), statuses 1 and 0 are summed. -/
def sumKeep (m : MatchingSelector) (header : Header) :
    Nat → List String → List MKey → Int
  | _, [], _ => 0
  | i, p :: ps, ks =>
    (let st := matcherStatus (ks.getD i (.str ""))
        (headerGetDefault header p)
     if st = -1 then 0 else st) + sumKeep m header (i + 1) ps ks

/-- The winnowing rule as the claim under study states it: a case with a
-1 match on a required parameter is removed, and in every other situation
the match status is subtracted from the weight - including a -1 on an
optional parameter, which this rule (unlike `_winnow`) turns into a +1
weight penalty. -/
def winnowClaimedParam (req : Bool) (i : Nat) (value : String) :
    List ((List MKey × Choice) × Int) → List ((List MKey × Choice) × Int) :=
  List.filterMap (fun mw =>
    if matcherStatus (mw.1.1.getD i (.str "")) value = -1 ∧ req = true then
      none
    else some (mw.1, mw.2 - matcherStatus (mw.1.1.getD i (.str "")) value))

/-- The parameter loop of the claimed winnowing rule. -/
def winnowClaimedGo (m : MatchingSelector) (header : Header) :
    Nat → List String → List ((List MKey × Choice) × Int) →
      List ((List MKey × Choice) × Int)
  | _, [], cases => cases
  | i, p :: ps, cases =>
    winnowClaimedGo m header (i + 1) ps
      (winnowClaimedParam (m.requiredOf p) i (headerGetDefault header p) cases)

/-- The winnowing phase as described by the claim under study (every case
starts at weight 0; removal on required -1; otherwise subtract the
status). -/
def MatchingSelector.winnowClaimed (m : MatchingSelector) (header : Header) :
    List ((List MKey × Choice) × Int) :=
  winnowClaimedGo m header 0 m.parameters (m.selections.map (fun s => (s, 0)))

/-- Mirror of `Selector.__init__`: `self._selections = sorted(selections.items())`.
Sorting a dict's items orders them by key (dict keys are distinct, so the
value component is never compared); the comparison used for the keys is
passed in as `le`. -/
def selectorInit {κ α : Type} (le : κ → κ → Bool) (sels : List (κ × α)) :
    List (κ × α) :=
  List.insertionSort (fun a b => le a.1 b.1 = true) sels

/-- Mirror of `Selector.keys`. -/
def keysOf {κ α : Type} (sels : List (κ × α)) : List κ :=
  sels.map (fun s => s.1)

/-- Mirror of `Selector.choices`. -/
def choicesOf {κ α : Type} (sels : List (κ × α)) : List α :=
  sels.map (fun s => s.2)

/-- The UseAfter selector: keys are datetime strings, ascending. -/
structure UseAfterSelector where
  parameters : List String
  selections : List (String × Choice)

/-- Construct a `UseAfterSelector` the way `UseAfterSelector.__init__`
does (via `Selector.__init__`): sort the selections by key, using the
Python string order. -/
def UseAfterSelector.init (params : List String)
    (raw : List (String × Choice)) : UseAfterSelector :=
  ⟨params, selectorInit pyLe raw⟩

/-- Split a character list at every occurrence of `c` (Python
`str.split(c)` with a one-character separator). -/
def splitOnChar (c : Char) : List Char → List (List Char)
  | [] => [[]]
  | x :: xs =>
    let r := splitOnChar c xs
    if x = c then [] :: r
    else
      match r with
      | [] => [[x]]
      | h :: t => (x :: h) :: t

/-- Left-pad a string with zeros to width `w`. -/
def padTo (w : Nat) (s : String) : String :=
  if s.length < w then String.mk (List.replicate (w - s.length) '0' ++ s.data)
  else s

/-- Modelled from the spec: the `timestamp` module imported by
`selectors.py` is not part of src/ (only its caller
`UseAfterSelector.choose` is).  Per the spec, `reformat_date` normalizes a
date-or-datetime string to the canonical `YYYY-MM-DD HH:MM:SS` form; this
model zero-pads each numeric field of a `date time` string to the
canonical widths and leaves other shapes unchanged.  On
already-canonical inputs (all inputs appearing in this development) it is
the identity. -/
def reformat_date (s : String) : String :=
  match splitOnChar ' ' s.data with
  | [d, t] =>
    let dparts := (splitOnChar '-' d).map String.mk
    let tparts := (splitOnChar ':' t).map String.mk
    if dparts.length = 3 && tparts.length = 3 then
      String.intercalate "-" (List.zipWith padTo [4, 2, 2] dparts) ++ " " ++
        String.intercalate ":" (List.zipWith padTo [2, 2, 2] tparts)
    else s
  | _ => s

/-- Mirror of `UseAfterSelector.bsearch`: binary search over the sorted
selections list; returns the selection holding the greatest key `<=` the
query date, or raises `UseAfterError` when every key is greater (in
particular on an empty list). -/
def UseAfterSelector.bsearch (date : String) :
    List (String × Choice) → Except LookupErr (String × Choice)
  | [] => .error (.useAfterError ("No selection with time < '" ++ date ++ "'"))
  | [s] =>
    if pyLe s.1 date then .ok s
    else .error (.useAfterError ("No selection with time < '" ++ date ++ "'"))
  | s0 :: s1 :: rest =>
    let sels := s0 :: s1 :: rest
    let right := sels.drop (sels.length / 2)
    if pyLe ((right.headD ("", .term "")).1) date then
      UseAfterSelector.bsearch date right
    else
      UseAfterSelector.bsearch date (sels.take (sels.length / 2))
termination_by sels => sels.length
decreasing_by
· simpa using by omega
· simpa using by omega

/-- Look up every parameter in the header (`[header[x] for x in
self._parameters]`); `none` models the `KeyError` Python raises when one
is missing. -/
def lookupAll (header : Header) : List String → Option (List String)
  | [] => some []
  | p :: ps =>
    match List.lookup p header with
    | some v => (lookupAll header ps).map (fun vs => v :: vs)
    | none => none

/-- Mirror of `UseAfterSelector.choose`: join the header values for the
selector's parameters with single spaces, normalize with
`reformat_date`, binary-search the sorted selections, and extract the
choice. -/
def UseAfterSelector.choose (u : UseAfterSelector) (header : Header) :
    Except LookupErr String :=
  match lookupAll header u.parameters with
  | none => .error (.keyError "date parameter missing from header")
  | some vals =>
    let date := reformat_date (String.intercalate " " vals)
    match UseAfterSelector.bsearch date u.selections with
    | .error e => .error e
    | .ok sel => getChoice sel.2 header

/-- A numeric-query header (parameters holding Python floats, modelled as
exact rationals): the header slice consumed by the
LinearInterpolation and VersionDep selectors. -/
abbrev QHeader := List (String × Rat)

/-- The LinearInterpolation selector.  Keys are numeric; the source's
`get_choice` recursion applies to nested selectors, which never occur
under LinearInterpolation in this development, so choices are the
terminal strings themselves. -/
structure LinearInterpolationSelector where
  parameter : String
  selections : List (Rat × String)

/-- Construct a `LinearInterpolationSelector` as its `__init__` does via
`Selector.__init__`: sort the selections by numeric key. -/
def LinearInterpolationSelector.init (p : String)
    (raw : List (Rat × String)) : LinearInterpolationSelector :=
  ⟨p, selectorInit (fun a b => decide (a ≤ b)) raw⟩

/-- The index at which the scan loop of
`LinearInterpolationSelector.choose` stops: the first position whose key
is not less than the query value (`while index < len and keyval >
selections[index][0]`); equals the length when every key is smaller. -/
def LinearInterpolationSelector.scanIndex (keyval : Rat)
    (sels : List (Rat × String)) : Nat :=
  sels.findIdx (fun s => !(decide (s.1 < keyval)))

/-- Mirror of `LinearInterpolationSelector.choose`: return the bracketing
pair of choices, an equal pair on an exact hit or off either end.
An empty selections list raises `IndexError` (Python's `selections[-1]`),
a missing parameter raises `KeyError`; both are in the LookupError
family. -/
def LinearInterpolationSelector.choose (l : LinearInterpolationSelector)
    (header : QHeader) : Except LookupErr (String × String) :=
  match List.lookup l.parameter header with
  | none => .error (.keyError ("'" ++ l.parameter ++ "'"))
  | some keyval =>
    let sels := l.selections
    let index := LinearInterpolationSelector.scanIndex keyval sels
    if sels.length = 0 then .error (.indexError "list index out of range")
    else if index = sels.length then
      let c := (sels.getD (index - 1) (0, "")).2
      .ok (c, c)
    else if index = 0 || keyval = (sels.getD index (0, "")).1 then
      let c := (sels.getD index (0, "")).2
      .ok (c, c)
    else
      .ok ((sels.getD (index - 1) (0, "")).2, (sels.getD index (0, "")).2)

/-- The version expression carried by a `VersionRelation`: either a
number (`eval` of the expression text; tuple expressions are outside the
scope of this development) or the special `"default"` marker.  Python 2
`cmp` sorts every number before every string, in particular before
`"default"`. -/
inductive Version where
  | num (q : Rat)
  | dflt
deriving DecidableEq, Repr

/-- A version relation: a relation operator (`"<"`, `"<="`, `"="` after
normalization of `"=="`, or `"default"`) together with a version
expression.  `VersionRelation.__init__` sets `relation = "default"` if
and only if `version = "default"`. -/
structure VersionRelation where
  relation : String
  version : Version
deriving DecidableEq, Repr

/-- Python 2 three-way `cmp` on rationals. -/
def cmpRat (a b : Rat) : Int :=
  if a < b then -1 else if a = b then 0 else 1

/-- Python 2 three-way `cmp` on strings (byte order). -/
def cmpStr (a b : String) : Int :=
  if pyLt a b then -1 else if a = b then 0 else 1

/-- Python 2 three-way `cmp` on version expressions: numbers compare
numerically; a number and the string `"default"` compare by type name
(`float`/`int` before `str`), so every number is less than `"default"`.
The `dflt`-`dflt` case is unreachable from `VersionRelation.cmp` (the
first branch of `__cmp__` fires first). -/
def cmpVersion : Version → Version → Int
  | .num a, .num b => cmpRat a b
  | .num _, .dflt => -1
  | .dflt, .num _ => 1
  | .dflt, .dflt => 0

/-- Mirror of `VersionRelation.__cmp__` restricted to VersionRelation
arguments: a `default` relation compares greater than everything
(including itself); relations with equal versions but different
operators compare by the operator string; otherwise the versions are
compared. -/
def VersionRelation.cmp (a b : VersionRelation) : Int :=
  if a.version = .dflt then 1
  else if a.relation ≠ b.relation ∧ a.version = b.version then
    cmpStr a.relation b.relation
  else cmpVersion a.version b.version

/-- Mirror of the other-branch of `VersionRelation.__cmp__`: comparing a
relation against a bare (compatible, numeric) version `v` compares it
against `VersionRelation("= " + str(v))`. -/
def VersionRelation.cmpNum (a : VersionRelation) (v : Rat) : Int :=
  a.cmp ⟨"=", .num v⟩

/-- The VersionDep selector: sorted version relations to choices
(terminal strings in this development, as in the source's doctests). -/
structure VersionDepSelector where
  selections : List (VersionRelation × String)

/-- Construct a `VersionDepSelector` as `VersionDepSelector.__init__`
does via `Selector.__init__`: sort the selections with the
`VersionRelation.__cmp__` order. -/
def VersionDepSelector.init (raw : List (VersionRelation × String)) :
    VersionDepSelector :=
  ⟨selectorInit (fun a b => decide (a.cmp b ≤ 0)) raw⟩

/-- Mirror of `VersionDepSelector.choose` with `versionvar` already
looked up: scan forward past every relation less than the version and
take the choice at the stopping index; running off the end is Python's
`IndexError` (a LookupError). -/
def VersionDepSelector.choose (v : VersionDepSelector) (version : Rat) :
    Except LookupErr String :=
  match v.selections.findIdx? (fun s => !(s.1.cmpNum version == -1)) with
  | none => .error (.indexError "list index out of range")
  | some i => .ok ((v.selections.getD i (⟨"=", .dflt⟩, "")).2)

/-- Error kinds of the `rmap.py` loader: the `MappingError` hierarchy
(`FormatError`, `ChecksumError`, `MissingHeaderKeyError`) plus Python's
`NameError`, which the `MappingValidator.__getattr__` slip actually
raises when an illegal construct is dispatched. -/
inductive MappingErr where
  | formatError (msg : String)
  | checksumError (msg : String)
  | missingHeaderKeyError (msg : String)
  | mappingError (msg : String)
  | nameError (msg : String)
deriving DecidableEq, Repr

/-- Python AST nodes of a mapping file as seen by `MappingValidator`.
`Module`, `Assign` and `Call` have dedicated visit methods; `Name`,
`Dict`, `Str`, `Num` and `Tuple` reach `generic_visit` through
`__getattr__`; every other node class is represented by `other` with its
class name, line number and children (for `Dict`, the children are the
interleaved keys and values; only the visiting order matters to the
validator). -/
inductive PyAst where
  | module (body : List PyAst)
  | assign (lineno : Nat) (targets : List PyAst) (value : PyAst)
  | call (lineno : Nat) (funcId : String) (args : List PyAst)
  | name (id : String)
  | strLit (s : String)
  | numLit (n : Int)
  | tupleLit (elts : List PyAst)
  | dict (children : List PyAst)
  | other (kind : String) (lineno : Nat) (children : List PyAst)
deriving Repr

/-- The node-class names listed in `MappingValidator.illegal_nodes`. -/
def illegal_nodes : List String :=
  ["FunctionDef", "ClassDef", "Return", "Delete", "AugAssign", "Print",
   "For", "While", "If", "With", "Raise", "TryExcept", "TryFinally",
   "Assert", "Import", "ImportFrom", "Exec", "Global", "Pass",
   "Repr", "Yield", "Lambda", "Attribute", "Subscript"]

/-- The registered selector constructors (`selectors.SELECTORS`). -/
def SELECTOR_NAMES : List String := ["Match", "UseAfter"]

/-- Is the assignment value a `Call` or `Dict` node
(`isinstance(node.value, (ast.Call, ast.Dict))`)? -/
def isCallOrDict : PyAst → Bool
  | .call _ _ _ => true
  | .dict _ => true
  | _ => false

mutual

/-- Mirror of `MappingValidator.visit` dispatch.  `Module`, `Assign` and
`Call` run their checking methods (with `assert_` called in the correct
argument order) and then `generic_visit`.  All other node classes go
through `__getattr__("visit_<Class>")`: for a class in `illegal_nodes`
that method body evaluates the bare name `visit_Illegal`, which is
unbound at runtime, so Python raises `NameError` - not `FormatError`.
(Even if the intended bound method were returned, `visit_Illegal` calls
`self.assert_(False, node, msg)` with the `node` and `flag` arguments
swapped, so the truthy `node` would make the assert pass silently.)
Classes not in the list fall back to `generic_visit`, which visits all
children. -/
def visit : PyAst → Except MappingErr Unit
  | .module body =>
    if body.length = 2 then visitList body
    else .error (.formatError "define only 'header' and 'selector' sections")
  | .assign lineno targets value =>
    if targets.length ≠ 1 then
      .error (.formatError
        ("Invalid 'header' or 'selector' definition at line " ++
          toString lineno))
    else
      match targets with
      | [.name id] =>
        if id = "header" ∨ id = "selector" then
          if isCallOrDict value then
            do
              visitList targets
              visit value
          else
            .error (.formatError
              ("Section value must be a selector call or dictionary at line "
                ++ toString lineno))
        else
          .error (.formatError
            ("Only define 'header' or 'selector' sections at line " ++
              toString lineno))
      | _ =>
        .error (.formatError
          ("Invalid 'header' or 'selector' definition at line " ++
            toString lineno))
  | .call lineno funcId args =>
    if funcId ∈ SELECTOR_NAMES then visitList args
    else
      .error (.formatError
        ("Selector '" ++ funcId ++ "' is not one of supported Selectors" ++
          " at line " ++ toString lineno))
  | .name _ => .ok ()
  | .strLit _ => .ok ()
  | .numLit _ => .ok ()
  | .tupleLit elts => visitList elts
  | .dict children => visitList children
  | .other kind _ children =>
    if kind ∈ illegal_nodes then
      .error (.nameError "global name 'visit_Illegal' is not defined")
    else visitList children

/-- Visit a child list in order, stopping at the first exception
(`generic_visit`). -/
def visitList : List PyAst → Except MappingErr Unit
  | [] => .ok ()
  | a :: as =>
    do
      visit a
      visitList as

end

/-- Mirror of `MappingValidator.compile_and_check` after `ast.parse`
(the Python parser itself is outside the embedding): run the validator
over the parsed tree.  The compiled code object the source additionally
returns plays no role in validation. -/
def compile_and_check (tree : PyAst) : Except MappingErr Unit :=
  visit tree

/-! SHA-1, implemented from the standard algorithm to model
`hashlib.sha1(text).hexdigest()` (the Python standard library is not
repository code); operates on the ASCII bytes of the text, which is the
only alphabet appearing in mapping files. -/

/-- Truncate to a 32-bit word. -/
def w32 (n : Nat) : Nat := n % 4294967296

/-- Rotate a 32-bit word left by `b` bits. -/
def rotl (b n : Nat) : Nat := w32 ((n <<< b) + (n >>> (32 - b)))

/-- Expand the 16 block words into the 80-word schedule; `acc` holds the
words produced so far, most recent first. -/
def sha1ExtendLoop : Nat → List Nat → List Nat
  | 0, acc => acc
  | n + 1, acc =>
    sha1ExtendLoop n
      (rotl 1 (Nat.xor (Nat.xor (acc.getD 2 0) (acc.getD 7 0))
        (Nat.xor (acc.getD 13 0) (acc.getD 15 0))) :: acc)

/-- The round function and constant for round `i`. -/
def sha1F (i b c d : Nat) : Nat × Nat :=
  if i < 20 then
    (Nat.lor (Nat.land b c) (Nat.land (Nat.xor b 4294967295) d), 1518500249)
  else if i < 40 then (Nat.xor (Nat.xor b c) d, 1859775393)
  else if i < 60 then
    (Nat.lor (Nat.lor (Nat.land b c) (Nat.land b d)) (Nat.land c d),
      2400959708)
  else (Nat.xor (Nat.xor b c) d, 3395469782)

/-- One block's 80 compression rounds. -/
def sha1Rounds : Nat → List Nat → Nat × Nat × Nat × Nat × Nat →
    Nat × Nat × Nat × Nat × Nat
  | _, [], st => st
  | i, w :: ws, (a, b, c, d, e) =>
    let fk := sha1F i b c d
    let temp := w32 (rotl 5 a + fk.1 + e + fk.2 + w)
    sha1Rounds (i + 1) ws (temp, a, rotl 30 b, c, d)

/-- Compress one 64-byte block (taken from the front of `bytes`) into
the running state. -/
def sha1Step (bytes : List Nat) (st : Nat × Nat × Nat × Nat × Nat) :
    Nat × Nat × Nat × Nat × Nat :=
  let block := bytes.take 64
  let words16 := (List.range 16).map (fun i =>
    (block.getD (4 * i) 0) <<< 24 + (block.getD (4 * i + 1) 0) <<< 16 +
      (block.getD (4 * i + 2) 0) <<< 8 + block.getD (4 * i + 3) 0)
  let schedule := (sha1ExtendLoop 64 words16.reverse).reverse
  let r := sha1Rounds 0 schedule st
  (w32 (st.1 + r.1), w32 (st.2.1 + r.2.1), w32 (st.2.2.1 + r.2.2.1),
    w32 (st.2.2.2.1 + r.2.2.2.1), w32 (st.2.2.2.2 + r.2.2.2.2))

/-- Fold the compression over the given number of 64-byte blocks. -/
def sha1BlocksGo : Nat → List Nat → Nat × Nat × Nat × Nat × Nat →
    Nat × Nat × Nat × Nat × Nat
  | 0, _, st => st
  | n + 1, bytes, st => sha1BlocksGo n (bytes.drop 64) (sha1Step bytes st)

/-- SHA-1 padding: append 0x80, zeros to reach 56 mod 64, and the bit
length as 8 big-endian bytes. -/
def sha1Pad (bytes : List Nat) : List Nat :=
  let len := bytes.length
  let zeros := (119 - len % 64) % 64
  let bitLen := 8 * len
  bytes ++ 128 :: List.replicate zeros 0 ++
    (List.range 8).map (fun i => (bitLen >>> (8 * (7 - i))) % 256)

def hexDigit (n : Nat) : Char :=
  if n < 10 then Char.ofNat (48 + n) else Char.ofNat (87 + n)

/-- Lowercase 8-digit hex rendering of a 32-bit word. -/
def toHex8 (n : Nat) : String :=
  String.mk ((List.range 8).map (fun i => hexDigit ((n >>> (28 - 4 * i)) % 16)))

/-- SHA-1 hex digest of a string's bytes (ASCII texts; for code points
below 128 the UTF-8 bytes are the code points themselves).  Verified
against the standard test vectors for the empty string, "abc", and
longer multi-block inputs. -/
def sha1Hex (s : String) : String :=
  let padded := sha1Pad (s.data.map Char.toNat)
  let st := sha1BlocksGo (padded.length / 64) padded
    (1732584193, 4023233417, 2562383102, 271733878, 3285377520)
  toHex8 st.1 ++ toHex8 st.2.1 ++ toHex8 st.2.2.1 ++ toHex8 st.2.2.2.1 ++
    toHex8 st.2.2.2.2

/-- Character-level worker for `readlines`. -/
def splitLinesAux : List Char → List (List Char)
  | [] => []
  | c :: cs =>
    match splitLinesAux cs with
    | [] => [[c]]
    | h :: t =>
      if c = '\n' then [c] :: h :: t
      else (c :: h) :: t

/-- Split a text into lines retaining the terminators (Python
`file.readlines()`). -/
def readlines (s : String) : List String :=
  (splitLinesAux s.data).map String.mk

/-- Python `sub in s` substring test. -/
def strContainsSub (s sub : String) : Bool :=
  (List.range (s.data.length + 1)).any
    (fun i => sub.data.isPrefixOf (s.data.drop i))

/-- Mirror of `Mapping._get_checksum`: SHA-1 of the file text with every
line containing the substring `"sha1sum"` removed. -/
def get_checksum (text : String) : String :=
  sha1Hex (String.join
    ((readlines text).filter (fun line => !(strContainsSub line "sha1sum"))))

/-- Mirror of `Mapping._check_hash`: `ChecksumError` when the parsed
header carries no `sha1sum` entry, or when the computed digest differs
from the stored one. -/
def check_hash (header : List (String × String)) (text : String) :
    Except MappingErr Unit :=
  match List.lookup "sha1sum" header with
  | none => .error (.checksumError "sha1sum is missing")
  | some old =>
    if get_checksum text ≠ old then
      .error (.checksumError "sha1sum mismatch.")
    else .ok ()

/-- Mirror of `Mapping._validate_file_load`: check the required header
keys, then verify the checksum unless explicitly bypassed with
`ignore_checksum`. -/
def validate_file_load (required_attrs : List String)
    (header : List (String × String)) (text : String)
    (ignore_checksum : Bool) : Except MappingErr Unit :=
  match required_attrs.find? (fun n => (List.lookup n header).isNone) with
  | some n =>
    .error (.missingHeaderKeyError
      ("Required header key '" ++ n ++ "' is missing."))
  | none =>
    if ignore_checksum then .ok () else check_hash header text

/-- The per-reftype view of an `InstrumentContext`: each reftype is
mapped to the `get_best_ref` of its `ReferenceMapping`, which is
`self.selector.choose` - represented, as nested selectors are
elsewhere in this embedding, by the bound choose function. -/
structure InstrumentContext where
  selections : List (String × (Header → Except LookupErr String))

/-- Mirror of `InstrumentContext.get_best_references`: one entry per
reftype; a reftype whose lookup raises records the placeholder
`"NOT FOUND <message>"` instead of aborting the batch. -/
def InstrumentContext.get_best_references (i : InstrumentContext)
    (header : Header) : List (String × String) :=
  i.selections.map (fun rt =>
    (rt.1,
      match rt.2 header with
      | .ok r => r
      | .error e => "NOT FOUND " ++ e.msg))

/-- The survivor-and-weight function of the winnow loop, per case. -/
def winnowCaseFun (m : MatchingSelector) (header : Header) (i : Nat)
    (ps : List String) (mw : (List MKey × Choice) × Int) :
    Option ((List MKey × Choice) × Int) :=
  if survivesFrom m header i ps mw.1.1 then
    some (mw.1, mw.2 - sumKeep m header i ps mw.1.1)
  else none


/-! Concrete fixtures used by the claim theorems, witnesses and
counterexamples. -/

/-- The Match selector of the spec's test scenario 2
(`MatchingSelector(("*foo","bar"), ...)` from the source doctest). -/
def m7 : MatchingSelector :=
  ⟨["*foo", "bar"],
   [([.str "1.0", .str "*"], .term "100"),
    ([.str "1.0", .str "2.0"], .term "200"),
    ([.str "*", .str "*"], .term "300")]⟩

/-- A Match selector with a single optional parameter and a single case,
whose matcher mismatches the header value. -/
def mC3 : MatchingSelector := ⟨["*foo"], [([.str "1.0"], .term "100")]⟩

/-- A UseAfter selector whose only key is later than the C1 query date,
so its choose raises `UseAfterError`. -/
def uC1 : UseAfterSelector :=
  UseAfterSelector.init ["DATE-OBS", "TIME-OBS"]
    [("2005-01-01 00:00:00", .term "late.fits")]

/-- A Match over a nested UseAfter that fails, with a weaker wildcard
case to fall through to. -/
def mC1 : MatchingSelector :=
  ⟨["det"],
   [([.str "A"], .sel uC1.choose),
    ([.str "*"], .term "fallback.fits")]⟩

def headerC1 : Header :=
  [("det", "A"), ("DATE-OBS", "2004-01-01"), ("TIME-OBS", "00:00:00")]

/-- The UseAfter selector of the spec's test scenario 3. -/
def uC2 : UseAfterSelector :=
  UseAfterSelector.init ["DATE-OBS", "TIME-OBS"]
    [("2004-02-14 00:00:00", .term "A"), ("2004-04-25 21:31:00", .term "B")]

def headerC2 : Header :=
  [("DATE-OBS", "2004-07-02"), ("TIME-OBS", "08:09:00")]

/-- The LinearInterpolation selector of the spec's test scenario 4
(1.2, 1.5 and 5.0 as exact rationals). -/
def l9 : LinearInterpolationSelector :=
  LinearInterpolationSelector.init "w"
    [(mkRat 6 5, "a"), (mkRat 3 2, "b"), (5, "c")]

/-- An instrument context with one succeeding and one failing reftype. -/
def icC8 : InstrumentContext :=
  ⟨[("biasfile", fun _ => .ok "bias.fits"),
    ("darkfile", fun _ =>
      .error (.useAfterError "No selection with time < '1990-01-01'"))]⟩

/-- A parsed mapping whose module body has the two required assignments'
worth of statements, the second being an import - a forbidden construct
(`import os` at line 2). -/
def badMapping : PyAst :=
  .module [.assign 1 [.name "header"] (.dict []), .other "Import" 2 []]

/-- A small mapping file text whose header carries the correct SHA-1
checksum of the text with the sha1sum line removed. -/
def C6text : String :=
  "header = \x7b\n    'mapping' : 'reference',\n    'sha1sum' : '81a2a5177b2de70b3ba40d91b9012230bdd5b5e9',\n\x7d\nselector = \x7b\n\x7d\n"

/-- `C6text` with a single byte flipped ('reference' changed to
'referencf') in a line that participates in the digest. -/
def C6textFlipped : String :=
  "header = \x7b\n    'mapping' : 'referencf',\n    'sha1sum' : '81a2a5177b2de70b3ba40d91b9012230bdd5b5e9',\n\x7d\nselector = \x7b\n\x7d\n"

/-- The parsed header of `C6text`. -/
def C6header : List (String × String) :=
  [("mapping", "reference"),
   ("sha1sum", "81a2a5177b2de70b3ba40d91b9012230bdd5b5e9")]

/-- The `default` version relation. -/
def vdefaultRel : VersionRelation := ⟨"default", .dflt⟩

/-- C1's conclusion: `choose` delegates to the ranked iteration over the
winnowed groups, groups are ranked by ascending weight and are nonempty,
a multi-case group fails with `AmbiguousMatchError` immediately (whatever
weaker groups follow), a single terminal case is returned, a single
nested case is tried with `LookupError`-family failures falling through
to the next group, and exhaustion raises `MatchingError`. -/
def C1Concl (m : MatchingSelector) (header : Header) : Prop :=
  m.choose header = chooseGroups header (rank_candidates (m.winnow header)) ∧
  ((rank_candidates (m.winnow header)).map (fun wg => wg.1)).Pairwise
    (· ≤ ·) ∧
  (∀ wg ∈ rank_candidates (m.winnow header), wg.2 ≠ []) ∧
  (∀ (w : Int) (g : List (List MKey × Choice)) rest, g.length > 1 →
    chooseGroups header ((w, g) :: rest) =
      .error (.ambiguousMatchError "Ambiguous match.")) ∧
  (∀ (w : Int) t s rest,
    chooseGroups header ((w, [(t, Choice.term s)]) :: rest) = .ok s) ∧
  (∀ (w : Int) t f rest r, f header = .ok r →
    chooseGroups header ((w, [(t, Choice.sel f)]) :: rest) = .ok r) ∧
  (∀ (w : Int) t f rest e, f header = .error e →
    chooseGroups header ((w, [(t, Choice.sel f)]) :: rest) =
      chooseGroups header rest) ∧
  chooseGroups header ([] : List (Int × List (List MKey × Choice))) =
    .error (.matchingError "No match.")

/-- C2's conclusion: a successful choose returns the value stored under
the greatest key not exceeding the normalized space-joined query, and
when every key exceeds it the result is `UseAfterError`. -/
def C2Concl (u : UseAfterSelector) (header : Header)
    (vals : List String) : Prop :=
  (∀ s, u.choose header = .ok s →
    ∃ k, (k, Choice.term s) ∈ u.selections ∧
      pyLe k (reformat_date (String.intercalate " " vals)) = true ∧
      ∀ kq ∈ u.selections.map (fun p => p.1),
        pyLe kq (reformat_date (String.intercalate " " vals)) = true →
          pyLe kq k = true) ∧
  (∀ e, u.choose header = .error e →
    (∀ kq ∈ u.selections.map (fun p => p.1),
      pyLe kq (reformat_date (String.intercalate " " vals)) = false) ∧
    e = .useAfterError ("No selection with time < '" ++
      reformat_date (String.intercalate " " vals) ++ "'"))

/-- C8's conclusion: one entry per reftype, with failures recorded as
placeholders rather than aborting the batch. -/
def C8Concl (ic : InstrumentContext) (header : Header) : Prop :=
  (ic.get_best_references header).map (fun e => e.1) =
    ic.selections.map (fun e => e.1) ∧
  ((ic.get_best_references header).map (fun e => e.1)).Nodup ∧
  ∀ rt f, (rt, f) ∈ ic.selections →
    (∀ r, f header = .ok r → (rt, r) ∈ ic.get_best_references header) ∧
    (∀ e, f header = .error e →
      (rt, "NOT FOUND " ++ e.msg) ∈ ic.get_best_references header)

/-- C9's conclusion: the scan index is the first position whose key is
not below the query, and the returned pair follows the
bracketing/exact/off-end rule of the source. -/
def C9Concl (l : LinearInterpolationSelector) (header : QHeader)
    (q : Rat) : Prop :=
  (∀ j, j < LinearInterpolationSelector.scanIndex q l.selections →
    (l.selections.getD j (0, "")).1 < q) ∧
  (LinearInterpolationSelector.scanIndex q l.selections <
      l.selections.length →
    q ≤ (l.selections.getD
      (LinearInterpolationSelector.scanIndex q l.selections) (0, "")).1) ∧
  (LinearInterpolationSelector.scanIndex q l.selections =
      l.selections.length →
    l.choose header = .ok
      ((l.selections.getD (l.selections.length - 1) (0, "")).2,
        (l.selections.getD (l.selections.length - 1) (0, "")).2)) ∧
  ((LinearInterpolationSelector.scanIndex q l.selections <
      l.selections.length ∧
    (LinearInterpolationSelector.scanIndex q l.selections = 0 ∨
      q = (l.selections.getD
        (LinearInterpolationSelector.scanIndex q l.selections)
        (0, "")).1)) →
    l.choose header = .ok
      ((l.selections.getD
        (LinearInterpolationSelector.scanIndex q l.selections) (0, "")).2,
       (l.selections.getD
        (LinearInterpolationSelector.scanIndex q l.selections) (0, "")).2)) ∧
  ((0 < LinearInterpolationSelector.scanIndex q l.selections ∧
    LinearInterpolationSelector.scanIndex q l.selections <
      l.selections.length ∧
    q ≠ (l.selections.getD
      (LinearInterpolationSelector.scanIndex q l.selections) (0, "")).1) →
    l.choose header = .ok
      ((l.selections.getD
        (LinearInterpolationSelector.scanIndex q l.selections - 1)
        (0, "")).2,
       (l.selections.getD
        (LinearInterpolationSelector.scanIndex q l.selections) (0, "")).2))

/-- C10's conclusion: every selector sorts its selections by key at
construction (UseAfter by the Python string order, LinearInterpolation
numerically, VersionDep by the VersionRelation comparison), the stored
list is a permutation of the given selections, keys() / choices()
enumerate the stored (hence ascending) order, and the binary search over
an initialized UseAfter returns the greatest key not exceeding the query
(the property that rests on the sortedness invariant). -/
def C10Concl (params : List String) (rawU : List (String × Choice))
    (pl : String) (rawL : List (Rat × String))
    (rawV : List (VersionRelation × String)) : Prop :=
  (UseAfterSelector.init params rawU).selections.Pairwise
    (fun a b => pyLe a.1 b.1 = true) ∧
  ((UseAfterSelector.init params rawU).selections).Perm rawU ∧
  keysOf (UseAfterSelector.init params rawU).selections =
    (UseAfterSelector.init params rawU).selections.map (fun s => s.1) ∧
  choicesOf (UseAfterSelector.init params rawU).selections =
    (UseAfterSelector.init params rawU).selections.map (fun s => s.2) ∧
  (LinearInterpolationSelector.init pl rawL).selections.Pairwise
    (fun a b => a.1 ≤ b.1) ∧
  ((LinearInterpolationSelector.init pl rawL).selections).Perm rawL ∧
  (VersionDepSelector.init rawV).selections.Pairwise
    (fun a b => a.1.cmp b.1 ≤ 0) ∧
  ((VersionDepSelector.init rawV).selections).Perm rawV ∧
  (∀ date p_, UseAfterSelector.bsearch date
      (UseAfterSelector.init params rawU).selections = .ok p_ →
    p_ ∈ (UseAfterSelector.init params rawU).selections ∧
      pyLe p_.1 date = true ∧
      ∀ q_ ∈ (UseAfterSelector.init params rawU).selections,
        pyLe q_.1 date = true → pyLe q_.1 p_.1 = true) ∧
  (∀ date e, UseAfterSelector.bsearch date
      (UseAfterSelector.init params rawU).selections = .error e →
    ∀ q_ ∈ (UseAfterSelector.init params rawU).selections,
      pyLe q_.1 date = false)

/-! ## Helper lemmas: sorting with a comparator that is total and
transitive on the list at hand (Python `sorted`) -/

theorem sorted_orderedInsert_of {α : Type} {r : α → α → Prop} [DecidableRel r]
    (trans : ∀ x y z, r x y → r y z → r x z)
    (a : α) (l : List α) (total : ∀ b ∈ l, r a b ∨ r b a)
    (hs : List.Sorted r l) : List.Sorted r (List.orderedInsert r a l) := by
  induction l with
  | nil => simp
  | cons b bs ih =>
    by_cases hab : r a b
    · simp only [List.orderedInsert, if_pos hab]
      refine List.sorted_cons.2 ⟨?_, hs⟩
      intro c hc
      rcases List.mem_cons.1 hc with rfl | hc
      · exact hab
      · exact trans _ _ _ hab (List.rel_of_sorted_cons hs _ hc)
    · simp only [List.orderedInsert, if_neg hab]
      have hba : r b a := by
        rcases total b (List.mem_cons_self b bs) with h | h
        · exact absurd h hab
        · exact h
      have hs' := List.sorted_cons.1 hs
      refine List.sorted_cons.2
        ⟨?_, ih (fun c hc => total c (List.mem_cons_of_mem _ hc)) hs'.2⟩
      intro c hc
      rcases (List.mem_orderedInsert r).1 hc with rfl | hc
      · exact hba
      · exact hs'.1 c hc

theorem sorted_insertionSort_of {α : Type} {r : α → α → Prop} [DecidableRel r]
    (trans : ∀ x y z, r x y → r y z → r x z) (l : List α)
    (total : List.Pairwise (fun a b => r a b ∨ r b a) l) :
    List.Sorted r (List.insertionSort r l) := by
  induction l with
  | nil => simp
  | cons a bs ih =>
    have hpw := List.pairwise_cons.1 total
    simp only [List.insertionSort]
    apply sorted_orderedInsert_of trans
    · intro b hb
      exact hpw.1 b ((List.mem_insertionSort r).1 hb)
    · exact ih hpw.2

theorem pairwise_of_forall {α : Type} {r : α → α → Prop} (l : List α)
    (h : ∀ a b, r a b) : List.Pairwise r l := by
  induction l with
  | nil => exact List.Pairwise.nil
  | cons a bs ih => exact List.Pairwise.cons (fun b _ => h a b) ih

theorem selectorInit_perm {κ α : Type} (le : κ → κ → Bool)
    (sels : List (κ × α)) : (selectorInit le sels).Perm sels :=
  List.perm_insertionSort _ sels

theorem selectorInit_sorted {κ α : Type} (le : κ → κ → Bool)
    (trans : ∀ x y z, le x y = true → le y z = true → le x z = true)
    (sels : List (κ × α))
    (total : List.Pairwise (fun a b : κ × α =>
      le a.1 b.1 = true ∨ le b.1 a.1 = true) sels) :
    List.Pairwise (fun a b : κ × α => le a.1 b.1 = true)
      (selectorInit le sels) :=
  sorted_insertionSort_of
    (r := fun a b : κ × α => le a.1 b.1 = true)
    (fun x y z hxy hyz => trans x.1 y.1 z.1 hxy hyz) sels total

/-! ## Theorems: basic properties of the Python string order -/

theorem charListLt_irrefl (l : List Char) : charListLt l l = false := by
  induction l with
  | nil => rfl
  | cons a as ih => simp [charListLt, ih]

theorem charListLt_asymm (a b : List Char) (h : charListLt a b = true) :
    charListLt b a = false := by
  induction a generalizing b with
  | nil =>
    cases b with
    | nil => simp [charListLt] at h
    | cons y ys => simp [charListLt]
  | cons x xs ih =>
    cases b with
    | nil => simp [charListLt] at h
    | cons y ys =>
      simp only [charListLt] at h ⊢
      by_cases h1 : x.toNat < y.toNat
      · have h2 : ¬ y.toNat < x.toNat := by omega
        simp [h1, h2]
      · by_cases h2 : y.toNat < x.toNat
        · simp [h1, h2] at h
        · simp [h1, h2] at h ⊢
          exact ih ys h

theorem charListLt_trans (a b c : List Char) (hab : charListLt a b = true)
    (hbc : charListLt b c = true) : charListLt a c = true := by
  induction a generalizing b c with
  | nil =>
    cases b with
    | nil => simp [charListLt] at hab
    | cons y ys =>
      cases c with
      | nil => simp [charListLt] at hbc
      | cons z zs => simp [charListLt]
  | cons x xs ih =>
    cases b with
    | nil => simp [charListLt] at hab
    | cons y ys =>
      cases c with
      | nil => simp [charListLt] at hbc
      | cons z zs =>
        simp only [charListLt] at hab hbc ⊢
        by_cases hxy : x.toNat < y.toNat
        · by_cases hyz : y.toNat < z.toNat
          · have h1 : x.toNat < z.toNat := by omega
            simp [h1]
          · by_cases hzy : z.toNat < y.toNat
            · simp [hyz, hzy] at hbc
            · have h1 : x.toNat < z.toNat := by omega
              simp [h1]
        · by_cases hyx : y.toNat < x.toNat
          · simp [hxy, hyx] at hab
          · by_cases hyz : y.toNat < z.toNat
            · have h1 : x.toNat < z.toNat := by omega
              simp [h1]
            · by_cases hzy : z.toNat < y.toNat
              · simp [hyz, hzy] at hbc
              · have h1 : ¬ x.toNat < z.toNat := by omega
                have h2 : ¬ z.toNat < x.toNat := by omega
                simp [hxy, hyx] at hab
                simp [hyz, hzy] at hbc
                simp [h1, h2]
                exact ih ys zs hab hbc

theorem charListLt_connex (a b : List Char) (hab : charListLt a b = false)
    (hba : charListLt b a = false) : a = b := by
  induction a generalizing b with
  | nil =>
    cases b with
    | nil => rfl
    | cons y ys => simp [charListLt] at hab
  | cons x xs ih =>
    cases b with
    | nil => simp [charListLt] at hba
    | cons y ys =>
      simp only [charListLt] at hab hba
      by_cases h1 : x.toNat < y.toNat
      · simp [h1] at hab
      · by_cases h2 : y.toNat < x.toNat
        · simp [h1, h2] at hba
        · have hn : x.toNat = y.toNat := by omega
          have hxy : x = y := Char.eq_of_val_eq (UInt32.ext hn)
          simp [h1, h2] at hab hba
          rw [hxy, ih ys hab hba]

theorem pyLt_irrefl (a : String) : pyLt a a = false := charListLt_irrefl a.data

theorem pyLe_refl (a : String) : pyLe a a = true := by
  simp [pyLe]

theorem pyLe_total (a b : String) : pyLe a b = true ∨ pyLe b a = true := by
  by_cases h : charListLt a.data b.data = true
  · exact Or.inl (by simp [pyLe, pyLt, h])
  · by_cases h' : charListLt b.data a.data = true
    · exact Or.inr (by simp [pyLe, pyLt, h'])
    · have : a = b := String.ext
        (charListLt_connex _ _ (by simpa using h) (by simpa using h'))
      exact Or.inl (this ▸ pyLe_refl a)

theorem pyLe_trans (a b c : String) (hab : pyLe a b = true)
    (hbc : pyLe b c = true) : pyLe a c = true := by
  simp only [pyLe, pyLt, Bool.or_eq_true, beq_iff_eq] at hab hbc ⊢
  rcases hab with hab | hab
  · rcases hbc with hbc | hbc
    · exact Or.inl (charListLt_trans _ _ _ hab hbc)
    · exact Or.inl (hbc ▸ hab)
  · rcases hbc with hbc | hbc
    · exact Or.inl (hab ▸ hbc)
    · exact Or.inr (hab.trans hbc)

theorem pyLe_antisymm (a b : String) (hab : pyLe a b = true)
    (hba : pyLe b a = true) : a = b := by
  simp only [pyLe, pyLt, Bool.or_eq_true, beq_iff_eq] at hab hba
  rcases hab with hab | hab
  · rcases hba with hba | hba
    · exact absurd hab (by simp [charListLt_asymm _ _ hba])
    · exact hba.symm
  · exact hab

theorem pyLt_of_not_pyLe (a b : String) (h : pyLe a b = false) :
    pyLt b a = true := by
  rcases pyLe_total a b with h' | h'
  · exact absurd h' (by simp [h])
  · simp only [pyLe, Bool.or_eq_true, beq_iff_eq] at h'
    rcases h' with h' | h'
    · exact h'
    · subst h'
      simp [pyLe_refl] at h

theorem pyLe_of_pyLt (a b : String) (h : pyLt a b = true) : pyLe a b = true := by
  simp [pyLe, h]

theorem pyLe_false_of_pyLe (a b c : String) (hab : pyLe a b = true)
    (hac : pyLe a c = false) : pyLe b c = false := by
  cases h : pyLe b c
  · rfl
  · exact absurd (pyLe_trans a b c hab h) (by simp [hac])


/-! ## UseAfter binary search: greatest key not exceeding the query -/

theorem bsearch_spec (date : String) (sels : List (String × Choice))
    (hs : List.Pairwise (fun a b : String × Choice => pyLe a.1 b.1 = true) sels) :
    (∀ p, UseAfterSelector.bsearch date sels = .ok p →
        p ∈ sels ∧ pyLe p.1 date = true ∧
          ∀ q ∈ sels, pyLe q.1 date = true → pyLe q.1 p.1 = true) ∧
    (∀ e, UseAfterSelector.bsearch date sels = .error e →
        (∀ q ∈ sels, pyLe q.1 date = false) ∧
          e = .useAfterError ("No selection with time < '" ++ date ++ "'")) := by
  revert hs
  induction sels using UseAfterSelector.bsearch.induct date with
  | case1 =>
    intro hs
    constructor
    · intro p hp
      simp [UseAfterSelector.bsearch] at hp
    · intro e he
      simp only [UseAfterSelector.bsearch, Except.error.injEq] at he
      exact ⟨fun q hq => absurd hq (List.not_mem_nil q), he.symm⟩
  | case2 s hcond =>
    intro hs
    constructor
    · intro p hp
      simp only [UseAfterSelector.bsearch, if_pos hcond, Except.ok.injEq] at hp
      subst hp
      refine ⟨List.mem_singleton_self _, hcond, ?_⟩
      intro q hq _
      rcases List.mem_singleton.1 hq with rfl
      exact pyLe_refl q.1
    · intro e he
      simp only [UseAfterSelector.bsearch, if_pos hcond] at he
      simp at he
  | case3 s hcond =>
    intro hs
    have hfalse : pyLe s.1 date = false := by
      cases h : pyLe s.1 date
      · rfl
      · exact absurd h hcond
    constructor
    · intro p hp
      simp only [UseAfterSelector.bsearch, if_neg hcond] at hp
      simp at hp
    · intro e he
      simp only [UseAfterSelector.bsearch, if_neg hcond,
        Except.error.injEq] at he
      refine ⟨?_, he.symm⟩
      intro q hq
      rcases List.mem_singleton.1 hq with rfl
      exact hfalse
  | case4 s0 s1 rest sels right hcond ih =>
    intro hs
    have hcond2 : pyLe
        (((s0 :: s1 :: rest).drop ((s0 :: s1 :: rest).length / 2)).headD
          ("", Choice.term "")).1 date = true := hcond
    have hsub : ((s0 :: s1 :: rest).drop
        ((s0 :: s1 :: rest).length / 2)).Sublist (s0 :: s1 :: rest) :=
      List.drop_sublist _ _
    have hsr : List.Pairwise (fun a b : String × Choice => pyLe a.1 b.1 = true)
        ((s0 :: s1 :: rest).drop ((s0 :: s1 :: rest).length / 2)) :=
      List.Pairwise.sublist hsub hs
    obtain ⟨okR, errR⟩ := ih hsr
    have hrne : (s0 :: s1 :: rest).drop
        ((s0 :: s1 :: rest).length / 2) ≠ [] := by
      intro h
      have hlen : (s0 :: s1 :: rest).length ≤ (s0 :: s1 :: rest).length / 2 :=
        List.drop_eq_nil_iff.1 h
      simp only [List.length_cons] at hlen
      omega
    have hunf : UseAfterSelector.bsearch date (s0 :: s1 :: rest) =
        UseAfterSelector.bsearch date
          ((s0 :: s1 :: rest).drop ((s0 :: s1 :: rest).length / 2)) := by
      rw [UseAfterSelector.bsearch]
      simp only [if_pos hcond2]
    constructor
    · intro p hp
      rw [hunf] at hp
      obtain ⟨hmem, hple, hmax⟩ := okR p hp
      refine ⟨List.mem_of_mem_drop hmem, hple, ?_⟩
      intro q hq hqle
      have hq2 : q ∈ (s0 :: s1 :: rest).take ((s0 :: s1 :: rest).length / 2) ++
          (s0 :: s1 :: rest).drop ((s0 :: s1 :: rest).length / 2) := by
        rw [List.take_append_drop]
        exact hq
      rcases List.mem_append.1 hq2 with hq' | hq'
      · exact List.Sorted.rel_of_mem_take_of_mem_drop hs hq' hmem
      · exact hmax q hq' hqle
    · intro e he
      rw [hunf] at he
      obtain ⟨hall, _⟩ := errR e he
      exfalso
      cases hr : (s0 :: s1 :: rest).drop ((s0 :: s1 :: rest).length / 2) with
      | nil => exact hrne hr
      | cons r0 right2 =>
        have hmem : r0 ∈ (s0 :: s1 :: rest).drop
            ((s0 :: s1 :: rest).length / 2) := by
          rw [hr]
          exact List.mem_cons_self _ _
        have hf : pyLe r0.1 date = false := hall r0 hmem
        rw [hr] at hcond2
        simp only [List.headD_cons] at hcond2
        rw [hf] at hcond2
        exact Bool.false_ne_true hcond2
  | case5 s0 s1 rest sels right hcond ih =>
    intro hs
    have hcond2 : ¬ pyLe
        (((s0 :: s1 :: rest).drop ((s0 :: s1 :: rest).length / 2)).headD
          ("", Choice.term "")).1 date = true := hcond
    have hsubL : ((s0 :: s1 :: rest).take
        ((s0 :: s1 :: rest).length / 2)).Sublist (s0 :: s1 :: rest) :=
      List.take_sublist _ _
    have hsl : List.Pairwise (fun a b : String × Choice => pyLe a.1 b.1 = true)
        ((s0 :: s1 :: rest).take ((s0 :: s1 :: rest).length / 2)) :=
      List.Pairwise.sublist hsubL hs
    have hsub : ((s0 :: s1 :: rest).drop
        ((s0 :: s1 :: rest).length / 2)).Sublist (s0 :: s1 :: rest) :=
      List.drop_sublist _ _
    have hsr : List.Pairwise (fun a b : String × Choice => pyLe a.1 b.1 = true)
        ((s0 :: s1 :: rest).drop ((s0 :: s1 :: rest).length / 2)) :=
      List.Pairwise.sublist hsub hs
    obtain ⟨okL, errL⟩ := ih hsl
    have hrne : (s0 :: s1 :: rest).drop
        ((s0 :: s1 :: rest).length / 2) ≠ [] := by
      intro h
      have hlen : (s0 :: s1 :: rest).length ≤ (s0 :: s1 :: rest).length / 2 :=
        List.drop_eq_nil_iff.1 h
      simp only [List.length_cons] at hlen
      omega
    have hunf : UseAfterSelector.bsearch date (s0 :: s1 :: rest) =
        UseAfterSelector.bsearch date
          ((s0 :: s1 :: rest).take ((s0 :: s1 :: rest).length / 2)) := by
      rw [UseAfterSelector.bsearch]
      simp only [if_neg hcond2]
    have hdropfalse : ∀ q ∈ (s0 :: s1 :: rest).drop
        ((s0 :: s1 :: rest).length / 2), pyLe q.1 date = false := by
      intro q hq
      cases hr : (s0 :: s1 :: rest).drop ((s0 :: s1 :: rest).length / 2) with
      | nil => exact absurd hr hrne
      | cons r0 right2 =>
        have hr0 : pyLe r0.1 date = false := by
          cases h : pyLe r0.1 date
          · rfl
          · rw [hr] at hcond2
            simp only [List.headD_cons] at hcond2
            exact absurd h hcond2
        rw [hr] at hq
        rcases List.mem_cons.1 hq with rfl | hq'
        · exact hr0
        · have hsr2 := hsr
          rw [hr] at hsr2
          have hrel : pyLe r0.1 q.1 = true :=
            List.rel_of_sorted_cons hsr2 q hq'
          exact pyLe_false_of_pyLe r0.1 q.1 date hrel hr0
    constructor
    · intro p hp
      rw [hunf] at hp
      obtain ⟨hmem, hple, hmax⟩ := okL p hp
      refine ⟨List.mem_of_mem_take hmem, hple, ?_⟩
      intro q hq hqle
      have hq2 : q ∈ (s0 :: s1 :: rest).take ((s0 :: s1 :: rest).length / 2) ++
          (s0 :: s1 :: rest).drop ((s0 :: s1 :: rest).length / 2) := by
        rw [List.take_append_drop]
        exact hq
      rcases List.mem_append.1 hq2 with hq' | hq'
      · exact hmax q hq' hqle
      · exact absurd hqle (by
          rw [hdropfalse q hq']
          simp)
    · intro e he
      rw [hunf] at he
      obtain ⟨hall, hmsg⟩ := errL e he
      refine ⟨?_, hmsg⟩
      intro q hq
      have hq2 : q ∈ (s0 :: s1 :: rest).take ((s0 :: s1 :: rest).length / 2) ++
          (s0 :: s1 :: rest).drop ((s0 :: s1 :: rest).length / 2) := by
        rw [List.take_append_drop]
        exact hq
      rcases List.mem_append.1 hq2 with hq' | hq'
      · exact hall q hq'
      · exact hdropfalse q hq'

/-! ## Winnow characterization -/

theorem winnowGo_eq (m : MatchingSelector) (header : Header) :
    ∀ (ps : List String) (i : Nat)
      (cases : List ((List MKey × Choice) × Int)),
    winnowGo m header i ps cases =
      cases.filterMap (winnowCaseFun m header i ps) := by
  intro ps
  induction ps with
  | nil =>
    intro i cases
    simp only [winnowGo]
    induction cases with
    | nil => rfl
    | cons c cs ihc =>
      simp only [List.filterMap_cons, winnowCaseFun, survivesFrom, sumKeep,
        if_true] at ihc ⊢
      rw [← ihc]
      simp
  | cons p ps ih =>
    intro i cases
    simp only [winnowGo]
    rw [ih (i + 1)]
    simp only [winnowParam, List.filterMap_filterMap]
    apply List.filterMap_congr
    intro mw _
    simp only [winnowParamCase]
    by_cases hst : matcherStatus (mw.1.1.getD i (.str ""))
        (headerGetDefault header p) = -1
    · rw [if_pos hst]
      have hA : (matcherStatus (mw.1.1.getD i (.str ""))
          (headerGetDefault header p) == -1) = true := by
        rw [beq_iff_eq]
        exact hst
      by_cases hreq : m.requiredOf p = true
      · rw [if_pos hreq]
        simp only [Option.none_bind, winnowCaseFun, survivesFrom]
        rw [eq_comm]
        apply if_neg
        intro hcond
        rw [hA, hreq] at hcond
        simp at hcond
      · have hreqf : m.requiredOf p = false := by
          cases h : m.requiredOf p
          · rfl
          · exact absurd h hreq
        rw [if_neg hreq]
        simp only [Option.some_bind, winnowCaseFun, survivesFrom, sumKeep]
        simp only [hA, hreqf, Bool.and_false, Bool.not_false, Bool.true_and,
          if_pos hst, zero_add]
    · rw [if_neg hst]
      have hA : (matcherStatus (mw.1.1.getD i (.str ""))
          (headerGetDefault header p) == -1) = false :=
        beq_eq_false_iff_ne.mpr hst
      simp only [Option.some_bind, winnowCaseFun, survivesFrom, sumKeep]
      simp only [hA, Bool.false_and, Bool.not_false, Bool.true_and,
        if_neg hst]
      by_cases hsv : survivesFrom m header (i + 1) ps mw.1.1 = true
      · simp only [if_pos hsv, sub_sub]
      · simp only [if_neg hsv]

theorem winnow_eq (m : MatchingSelector) (header : Header) :
    m.winnow header =
      (m.selections.map (fun s => (s, (0 : Int)))).filterMap
        (winnowCaseFun m header 0 m.parameters) :=
  winnowGo_eq m header m.parameters 0 _

/-! ## Ranking of candidate groups -/

theorem mem_dedupAcc (x : Int) :
    ∀ (l seen : List Int), x ∈ dedupAcc seen l ↔ (x ∈ l ∧ x ∉ seen) := by
  intro l
  induction l with
  | nil =>
    intro seen
    simp [dedupAcc]
  | cons y ys ih =>
    intro seen
    simp only [dedupAcc]
    by_cases hy : seen.contains y
    · rw [if_pos hy, ih]
      constructor
      · rintro ⟨hmem, hns⟩
        exact ⟨List.mem_cons_of_mem _ hmem, hns⟩
      · rintro ⟨hmem, hns⟩
        rcases List.mem_cons.1 hmem with rfl | hmem
        · exact absurd (List.mem_of_elem_eq_true hy) hns
        · exact ⟨hmem, hns⟩
    · rw [if_neg hy]
      constructor
      · intro hmem
        rcases List.mem_cons.1 hmem with rfl | hmem
        · refine ⟨List.mem_cons_self _ _, ?_⟩
          intro hseen
          exact hy (List.elem_eq_true_of_mem hseen)
        · obtain ⟨h1, h2⟩ := (ih (y :: seen)).1 hmem
          refine ⟨List.mem_cons_of_mem _ h1, ?_⟩
          intro hseen
          exact h2 (List.mem_cons_of_mem _ hseen)
      · rintro ⟨hmem, hns⟩
        rcases List.mem_cons.1 hmem with rfl | hmem
        · exact List.mem_cons_self _ _
        · by_cases hxy : x = y
          · subst hxy
            exact List.mem_cons_self _ _
          · refine List.mem_cons_of_mem _ ((ih (y :: seen)).2 ⟨hmem, ?_⟩)
            intro hseen
            rcases List.mem_cons.1 hseen with h | h
            · exact hxy h
            · exact hns h

theorem rank_candidates_weights_sorted
    (cases : List ((List MKey × Choice) × Int)) :
    ((rank_candidates cases).map (fun wg => wg.1)).Pairwise (· ≤ ·) := by
  have hs : (rank_candidates cases).Pairwise
      (fun a b : Int × List (List MKey × Choice) => a.1 ≤ b.1) := by
    apply sorted_insertionSort_of
    · intro x y z hxy hyz
      omega
    · exact pairwise_of_forall _ (fun a b => Int.le_total a.1 b.1)
  exact List.Pairwise.map _ (fun a b h => h) hs

theorem rank_candidates_mem (cases : List ((List MKey × Choice) × Int))
    (wg : Int × List (List MKey × Choice))
    (hmem : wg ∈ rank_candidates cases) :
    wg.2 = (cases.filter (fun c => c.2 == wg.1)).map (fun c => c.1) ∧
      wg.1 ∈ cases.map (fun c => c.2) ∧ wg.2 ≠ [] := by
  have h1 : wg ∈ (dedupAcc [] (cases.map (fun c => c.2))).map (fun w =>
      (w, (cases.filter (fun c => c.2 == w)).map (fun c => c.1))) := by
    have := (List.mem_insertionSort
      (fun a b : Int × List (List MKey × Choice) => a.1 ≤ b.1)).1 hmem
    exact this
  obtain ⟨w, hw, hwg⟩ := List.mem_map.1 h1
  obtain ⟨hwmem, -⟩ := (mem_dedupAcc w _ _).1 hw
  subst hwg
  refine ⟨rfl, hwmem, ?_⟩
  obtain ⟨c, hc, hcw⟩ := List.mem_map.1 hwmem
  have hcf : c ∈ cases.filter (fun c => c.2 == w) :=
    List.mem_filter.2 ⟨hc, by simp [hcw]⟩
  exact List.ne_nil_of_mem (List.mem_map_of_mem _ hcf)

theorem rank_candidates_covers (cases : List ((List MKey × Choice) × Int))
    (c : (List MKey × Choice) × Int) (hc : c ∈ cases) :
    ∃ wg ∈ rank_candidates cases, wg.1 = c.2 := by
  have hw : c.2 ∈ dedupAcc [] (cases.map (fun c => c.2)) :=
    (mem_dedupAcc _ _ _).2 ⟨List.mem_map_of_mem _ hc, List.not_mem_nil _⟩
  refine ⟨(c.2, (cases.filter (fun d => d.2 == c.2)).map (fun d => d.1)),
    ?_, rfl⟩
  apply (List.mem_insertionSort
    (fun a b : Int × List (List MKey × Choice) => a.1 ≤ b.1)).2
  exact List.mem_map_of_mem _ hw

/-! ## Query validation -/

theorem validate_queryAux_ok_iff (m : MatchingSelector) (header : Header) :
    ∀ ps : List String,
    (validate_queryAux m header ps = .ok () ↔
      ∀ p ∈ ps, m.requiredOf p = true →
        ∃ v, List.lookup p header = some v ∧
          ((m.valueMap p).contains v = true ∨
            (m.valueMap p).contains "*" = true)) := by
  intro ps
  induction ps with
  | nil => simp [validate_queryAux]
  | cons p ps ih =>
    cases hl : List.lookup p header with
    | some v =>
      simp only [validate_queryAux, hl]
      by_cases hbad : (m.requiredOf p && !(m.valueMap p).contains v &&
          !(m.valueMap p).contains "*") = true
      · rw [if_pos hbad]
        simp only [Bool.and_eq_true, Bool.not_eq_true'] at hbad
        constructor
        · intro h
          exact absurd h (by simp)
        · intro h
          obtain ⟨v2, hv2, hval⟩ := h p (List.mem_cons_self _ _) hbad.1.1
          rw [hl] at hv2
          injection hv2 with hv2
          subst hv2
          rcases hval with hval | hval
          · rw [hbad.1.2] at hval
            exact absurd hval (by simp)
          · rw [hbad.2] at hval
            exact absurd hval (by simp)
      · rw [if_neg hbad]
        rw [ih]
        constructor
        · intro h q hq hreq
          rcases List.mem_cons.1 hq with rfl | hq
          · refine ⟨v, hl, ?_⟩
            simp only [Bool.and_eq_true, Bool.not_eq_true'] at hbad
            by_cases h1 : (m.valueMap q).contains v = true
            · exact Or.inl h1
            · by_cases h2 : (m.valueMap q).contains "*" = true
              · exact Or.inr h2
              · exfalso
                apply hbad
                refine ⟨⟨hreq, ?_⟩, ?_⟩
                · cases hc : (m.valueMap q).contains v
                  · rfl
                  · exact absurd hc h1
                · cases hc : (m.valueMap q).contains "*"
                  · rfl
                  · exact absurd hc h2
          · exact h q hq hreq
        · intro h q hq hreq
          exact h q (List.mem_cons_of_mem _ hq) hreq
    | none =>
      simp only [validate_queryAux, hl]
      by_cases hreq : m.requiredOf p = true
      · rw [if_pos hreq]
        constructor
        · intro h
          exact absurd h (by simp)
        · intro h
          obtain ⟨v, hv, -⟩ := h p (List.mem_cons_self _ _) hreq
          rw [hl] at hv
          exact absurd hv (by simp)
      · rw [if_neg hreq]
        rw [ih]
        constructor
        · intro h q hq hreqq
          rcases List.mem_cons.1 hq with rfl | hq
          · exact absurd hreqq hreq
          · exact h q hq hreqq
        · intro h q hq hreqq
          exact h q (List.mem_cons_of_mem _ hq) hreqq

theorem validate_queryAux_err_kinds (m : MatchingSelector) (header : Header) :
    ∀ (ps : List String) (e : LookupErr),
    validate_queryAux m header ps = .error e →
      ∃ msg, e = .missingParameterError msg ∨ e = .badValueError msg := by
  intro ps
  induction ps with
  | nil =>
    intro e he
    simp [validate_queryAux] at he
  | cons p ps ih =>
    intro e he
    cases hl : List.lookup p header with
    | some v =>
      simp only [validate_queryAux, hl] at he
      by_cases hbad : (m.requiredOf p && !(m.valueMap p).contains v &&
          !(m.valueMap p).contains "*") = true
      · rw [if_pos hbad] at he
        injection he with he
        exact ⟨_, Or.inr he.symm⟩
      · rw [if_neg hbad] at he
        exact ih e he
    | none =>
      simp only [validate_queryAux, hl] at he
      by_cases hreq : m.requiredOf p = true
      · rw [if_pos hreq] at he
        injection he with he
        exact ⟨_, Or.inl he.symm⟩
      · rw [if_neg hreq] at he
        exact ih e he

theorem validate_queryAux_missing (m : MatchingSelector) (header : Header) :
    ∀ ps : List String,
    (∃ p ∈ ps, m.requiredOf p = true ∧ List.lookup p header = none) →
    (∀ p ∈ ps, m.requiredOf p = true → ∀ v, List.lookup p header = some v →
      ((m.valueMap p).contains v = true ∨
        (m.valueMap p).contains "*" = true)) →
    ∃ p0 ∈ ps, m.requiredOf p0 = true ∧ List.lookup p0 header = none ∧
      validate_queryAux m header ps =
        .error (.missingParameterError
          ("Required parameter '" ++ p0 ++ "' is missing.")) := by
  intro ps
  induction ps with
  | nil =>
    rintro ⟨p, hp, -⟩ -
    exact absurd hp (List.not_mem_nil p)
  | cons p ps ih =>
    rintro ⟨q, hq, hqreq, hqabs⟩ hvalid
    cases hl : List.lookup p header with
    | some v =>
      simp only [validate_queryAux, hl]
      have hnotbad : (m.requiredOf p && !(m.valueMap p).contains v &&
          !(m.valueMap p).contains "*") = false := by
        by_cases hreq : m.requiredOf p = true
        · rcases hvalid p (List.mem_cons_self _ _) hreq v hl with h | h
          · rw [h]
            simp
          · rw [h]
            simp
        · have hf : m.requiredOf p = false := by
            cases hc : m.requiredOf p
            · rfl
            · exact absurd hc hreq
          rw [hf]
          simp
      rw [if_neg (by rw [hnotbad]; simp)]
      have hqtail : q ∈ ps := by
        rcases List.mem_cons.1 hq with rfl | h
        · rw [hl] at hqabs
          exact absurd hqabs (by simp)
        · exact h
      obtain ⟨p0, hp0, h1, h2, h3⟩ := ih ⟨q, hqtail, hqreq, hqabs⟩
        (fun r hr => hvalid r (List.mem_cons_of_mem _ hr))
      exact ⟨p0, List.mem_cons_of_mem _ hp0, h1, h2, h3⟩
    | none =>
      simp only [validate_queryAux, hl]
      by_cases hreq : m.requiredOf p = true
      · rw [if_pos hreq]
        exact ⟨p, List.mem_cons_self _ _, hreq, hl, rfl⟩
      · rw [if_neg hreq]
        have hqtail : q ∈ ps := by
          rcases List.mem_cons.1 hq with rfl | h
          · exact absurd hqreq hreq
          · exact h
        obtain ⟨p0, hp0, h1, h2, h3⟩ := ih ⟨q, hqtail, hqreq, hqabs⟩
          (fun r hr => hvalid r (List.mem_cons_of_mem _ hr))
        exact ⟨p0, List.mem_cons_of_mem _ hp0, h1, h2, h3⟩

theorem validate_queryAux_badvalue (m : MatchingSelector) (header : Header) :
    ∀ ps : List String,
    (∃ p ∈ ps, m.requiredOf p = true ∧ ∃ v, List.lookup p header = some v ∧
      (m.valueMap p).contains v = false ∧
        (m.valueMap p).contains "*" = false) →
    (∀ p ∈ ps, m.requiredOf p = true →
      ∃ v, List.lookup p header = some v) →
    ∃ msg, validate_queryAux m header ps = .error (.badValueError msg) := by
  intro ps
  induction ps with
  | nil =>
    rintro ⟨p, hp, -⟩ -
    exact absurd hp (List.not_mem_nil p)
  | cons p ps ih =>
    rintro ⟨q, hq, hqreq, v, hqv, hnc1, hnc2⟩ hpres
    cases hl : List.lookup p header with
    | some w =>
      simp only [validate_queryAux, hl]
      by_cases hbad : (m.requiredOf p && !(m.valueMap p).contains w &&
          !(m.valueMap p).contains "*") = true
      · rw [if_pos hbad]
        exact ⟨_, rfl⟩
      · rw [if_neg hbad]
        have hqtail : q ∈ ps := by
          rcases List.mem_cons.1 hq with rfl | h
          · rw [hl] at hqv
            injection hqv with hqv
            subst hqv
            exfalso
            apply hbad
            rw [hqreq, hnc1, hnc2]
            simp
          · exact h
        exact ih ⟨q, hqtail, hqreq, v, hqv, hnc1, hnc2⟩
          (fun r hr => hpres r (List.mem_cons_of_mem _ hr))
    | none =>
      simp only [validate_queryAux, hl]
      by_cases hreq : m.requiredOf p = true
      · obtain ⟨w, hw⟩ := hpres p (List.mem_cons_self _ _) hreq
        rw [hl] at hw
        exact absurd hw (by simp)
      · rw [if_neg hreq]
        have hqtail : q ∈ ps := by
          rcases List.mem_cons.1 hq with rfl | h
          · exact absurd hqreq hreq
          · exact h
        exact ih ⟨q, hqtail, hqreq, v, hqv, hnc1, hnc2⟩
          (fun r hr => hpres r (List.mem_cons_of_mem _ hr))

theorem choose_of_validate_err (m : MatchingSelector) (header : Header)
    (e : LookupErr) (he : m.validate_query header = .error e) :
    m.choose header = .error e := by
  simp [MatchingSelector.choose, he]

/-! ## VersionRelation comparison -/

theorem pyLt_trans (a b c : String) (hab : pyLt a b = true)
    (hbc : pyLt b c = true) : pyLt a c = true :=
  charListLt_trans a.data b.data c.data hab hbc

theorem pyLt_connex (a b : String) (hab : pyLt a b = false)
    (hba : pyLt b a = false) : a = b :=
  String.ext (charListLt_connex a.data b.data hab hba)

theorem pyLt_asymm (a b : String) (h : pyLt a b = true) : pyLt b a = false :=
  charListLt_asymm a.data b.data h

theorem vr_cmp_num_num (ra rb : String) (qa qb : Rat) :
    VersionRelation.cmp ⟨ra, .num qa⟩ ⟨rb, .num qb⟩ =
      if qa < qb then -1
      else if qb < qa then 1
      else if pyLt ra rb then -1
      else if ra = rb then 0
      else 1 := by
  simp only [VersionRelation.cmp]
  rw [if_neg (show ¬(Version.num qa = Version.dflt) by simp)]
  by_cases hq : qa = qb
  · subst hq
    by_cases hr : ra = rb
    · subst hr
      rw [if_neg (by simp)]
      simp [cmpVersion, cmpRat, pyLt_irrefl]
    · rw [if_pos ⟨hr, rfl⟩]
      simp only [cmpStr]
      simp only [if_neg (lt_irrefl qa)]
  · rw [if_neg (show ¬(ra ≠ rb ∧ Version.num qa = Version.num qb) by
      rintro ⟨-, hv⟩
      injection hv with hv
      exact hq hv)]
    simp only [cmpVersion, cmpRat]
    rcases lt_trichotomy qa qb with h | h | h
    · rw [if_pos h, if_pos h]
    · exact absurd h hq
    · simp only [if_neg (lt_asymm h), if_neg hq, if_pos h]

theorem vr_cmp_dflt_left (a b : VersionRelation) (ha : a.version = .dflt) :
    a.cmp b = 1 := by
  simp [VersionRelation.cmp, ha]

theorem vr_cmp_dflt_right (a b : VersionRelation) (ha : a.version ≠ .dflt)
    (hb : b.version = .dflt) : a.cmp b = -1 := by
  simp only [VersionRelation.cmp]
  rw [if_neg ha, if_neg (by
    rintro ⟨-, hv⟩
    rw [hv] at ha
    exact ha hb)]
  cases hv : a.version with
  | num q =>
    rw [hb]
    rfl
  | dflt => exact absurd hv ha

theorem vr_cmp_self_num (r : String) (q : Rat) :
    VersionRelation.cmp ⟨r, .num q⟩ ⟨r, .num q⟩ = 0 := by
  rw [vr_cmp_num_num]
  simp [pyLt_irrefl]

theorem vr_cmp_antisym_num (ra rb : String) (qa qb : Rat) :
    VersionRelation.cmp ⟨rb, .num qb⟩ ⟨ra, .num qa⟩ =
      -(VersionRelation.cmp ⟨ra, .num qa⟩ ⟨rb, .num qb⟩) := by
  rw [vr_cmp_num_num, vr_cmp_num_num]
  rcases lt_trichotomy qa qb with h | h | h
  · simp [h, lt_asymm h]
  · subst h
    by_cases hlt : pyLt ra rb = true
    · have hne : rb ≠ ra := by
        intro he
        subst he
        rw [pyLt_irrefl] at hlt
        exact Bool.false_ne_true hlt
      have hba : pyLt rb ra = false := pyLt_asymm _ _ hlt
      simp [hba, hlt, hne]
    · have hltf : pyLt ra rb = false := by
        cases hh : pyLt ra rb
        · rfl
        · exact absurd hh hlt
      by_cases he : ra = rb
      · subst he
        simp [pyLt_irrefl]
      · have hba : pyLt rb ra = true := by
          cases hh : pyLt rb ra
          · exact absurd (pyLt_connex rb ra hh hltf)
              (fun hhh => he hhh.symm)
          · rfl
        have hne : rb ≠ ra := fun hhh => he hhh.symm
        simp [hba, hltf, he, hne]
  · simp [h, lt_asymm h]

theorem vr_cmp_zero_iff_num (ra rb : String) (qa qb : Rat) :
    VersionRelation.cmp ⟨ra, .num qa⟩ ⟨rb, .num qb⟩ = 0 ↔
      (ra = rb ∧ qa = qb) := by
  rw [vr_cmp_num_num]
  constructor
  · intro h
    by_cases h1 : qa < qb
    · rw [if_pos h1] at h
      exact absurd h (by decide)
    · rw [if_neg h1] at h
      by_cases h2 : qb < qa
      · rw [if_pos h2] at h
        exact absurd h (by decide)
      · rw [if_neg h2] at h
        have hq : qa = qb := le_antisymm (not_lt.1 h2) (not_lt.1 h1)
        by_cases h3 : pyLt ra rb = true
        · rw [if_pos h3] at h
          exact absurd h (by decide)
        · rw [if_neg h3] at h
          by_cases h4 : ra = rb
          · exact ⟨h4, hq⟩
          · rw [if_neg h4] at h
            exact absurd h (by decide)
  · rintro ⟨hr, hq⟩
    subst hr
    subst hq
    simp [pyLt_irrefl]

theorem vr_cmp_trans_num (ra rb rc : String) (qa qb qc : Rat)
    (hab : VersionRelation.cmp ⟨ra, .num qa⟩ ⟨rb, .num qb⟩ = -1)
    (hbc : VersionRelation.cmp ⟨rb, .num qb⟩ ⟨rc, .num qc⟩ = -1) :
    VersionRelation.cmp ⟨ra, .num qa⟩ ⟨rc, .num qc⟩ = -1 := by
  rw [vr_cmp_num_num] at hab hbc ⊢
  by_cases h1 : qa < qb
  · by_cases h2 : qb < qc
    · rw [if_pos (h1.trans h2)]
    · have hbc2 : qb ≤ qc := by
        by_contra hgt
        push_neg at hgt
        rw [if_neg h2, if_pos hgt] at hbc
        exact absurd hbc (by decide)
      rw [if_pos (lt_of_lt_of_le h1 hbc2)]
  · have hab2 : qa = qb := by
      by_contra hne
      have hgt : qb < qa := lt_of_le_of_ne (not_lt.1 h1)
        (fun h => hne h.symm)
      rw [if_neg h1, if_pos hgt] at hab
      exact absurd hab (by decide)
    subst hab2
    rw [if_neg h1, if_neg h1] at hab
    have hrab : pyLt ra rb = true := by
      by_cases h : pyLt ra rb = true
      · exact h
      · have hf : pyLt ra rb = false := by
          cases hh : pyLt ra rb
          · rfl
          · exact absurd hh h
        rw [hf, if_neg (Bool.false_ne_true)] at hab
        by_cases he : ra = rb
        · rw [if_pos he] at hab
          exact absurd hab (by decide)
        · rw [if_neg he] at hab
          exact absurd hab (by decide)
    by_cases h2 : qa < qc
    · rw [if_pos h2]
    · have hbc2 : qa = qc := by
        by_contra hne
        have hgt : qc < qa := lt_of_le_of_ne (not_lt.1 h2)
          (fun h => hne h.symm)
        rw [if_neg h2, if_pos hgt] at hbc
        exact absurd hbc (by decide)
      subst hbc2
      rw [if_neg h2, if_neg h2] at hbc ⊢
      have hrbc : pyLt rb rc = true := by
        by_cases h : pyLt rb rc = true
        · exact h
        · have hf : pyLt rb rc = false := by
            cases hh : pyLt rb rc
            · rfl
            · exact absurd hh h
          rw [hf, if_neg (Bool.false_ne_true)] at hbc
          by_cases he : rb = rc
          · rw [if_pos he] at hbc
            exact absurd hbc (by decide)
          · rw [if_neg he] at hbc
            exact absurd hbc (by decide)
      rw [if_pos (pyLt_trans _ _ _ hrab hrbc)]

theorem vr_cmp_vals_num (ra rb : String) (qa qb : Rat) :
    VersionRelation.cmp ⟨ra, .num qa⟩ ⟨rb, .num qb⟩ = -1 ∨
      VersionRelation.cmp ⟨ra, .num qa⟩ ⟨rb, .num qb⟩ = 0 ∨
      VersionRelation.cmp ⟨ra, .num qa⟩ ⟨rb, .num qb⟩ = 1 := by
  rw [vr_cmp_num_num]
  split_ifs <;> simp

theorem vrLeB_trans (a b c : VersionRelation) (hab : a.cmp b ≤ 0)
    (hbc : b.cmp c ≤ 0) : a.cmp c ≤ 0 := by
  by_cases ha : a.version = .dflt
  · rw [vr_cmp_dflt_left a b ha] at hab
    omega
  · by_cases hb : b.version = .dflt
    · rw [vr_cmp_dflt_left b c hb] at hbc
      omega
    · by_cases hc : c.version = .dflt
      · rw [vr_cmp_dflt_right a c ha hc]
        omega
      · obtain ⟨ra, va⟩ := a
        obtain ⟨rb, vb⟩ := b
        obtain ⟨rc, vc⟩ := c
        cases va with
        | dflt => exact absurd rfl ha
        | num qa =>
          cases vb with
          | dflt => exact absurd rfl hb
          | num qb =>
            cases vc with
            | dflt => exact absurd rfl hc
            | num qc =>
              rcases vr_cmp_vals_num ra rb qa qb with h1 | h1 | h1
              · rcases vr_cmp_vals_num rb rc qb qc with h2 | h2 | h2
                · rw [vr_cmp_trans_num ra rb rc qa qb qc h1 h2]
                  omega
                · obtain ⟨hre, hqe⟩ := (vr_cmp_zero_iff_num rb rc qb qc).1 h2
                  subst hre
                  subst hqe
                  rw [h1]
                  omega
                · rw [h2] at hbc
                  omega
              · obtain ⟨hre, hqe⟩ := (vr_cmp_zero_iff_num ra rb qa qb).1 h1
                subst hre
                subst hqe
                exact hbc
              · rw [h1] at hab
                omega

theorem vrLeB_total (a b : VersionRelation)
    (h : ¬(a.version = .dflt ∧ b.version = .dflt)) :
    a.cmp b ≤ 0 ∨ b.cmp a ≤ 0 := by
  by_cases ha : a.version = .dflt
  · have hb : b.version ≠ .dflt := fun hb => h ⟨ha, hb⟩
    exact Or.inr (by
      rw [vr_cmp_dflt_right b a hb ha]
      omega)
  · by_cases hb : b.version = .dflt
    · exact Or.inl (by
        rw [vr_cmp_dflt_right a b ha hb]
        omega)
    · obtain ⟨ra, va⟩ := a
      obtain ⟨rb, vb⟩ := b
      cases va with
      | dflt => exact absurd rfl ha
      | num qa =>
        cases vb with
        | dflt => exact absurd rfl hb
        | num qb =>
          have hanti := vr_cmp_antisym_num ra rb qa qb
          rcases vr_cmp_vals_num ra rb qa qb with h1 | h1 | h1 <;>
            rw [h1] at hanti ⊢ <;> rw [hanti] <;> omega

/-! ## Claim theorems -/



/-- C3 counterexample: with the single optional parameter foo bound to
"2.0" against the case key "1.0" the matcher returns -1; the claim's rule
("otherwise subtracts the matcher's status") would assign the surviving
case weight 0 - (-1) = 1, but `_winnow` leaves the weight at 0 (its else
branch skips -1 statuses entirely), so the claim's description of the
weight update is false on this input. -/
theorem c3_winnow_weight_counterexample :
    (mC3.winnow [("foo", "2.0")]).map (fun c => c.2) = [0] ∧
    (mC3.winnowClaimed [("foo", "2.0")]).map (fun c => c.2) = [1] ∧
    (mC3.winnow [("foo", "2.0")]).map (fun c => c.2) ≠
      (mC3.winnowClaimed [("foo", "2.0")]).map (fun c => c.2) ∧
    mC3.choose [("foo", "2.0")] = .ok "100" := by
  refine ⟨by decide, by decide, by decide, by decide⟩

/-- C3 (amended): `_winnow` starts every case at weight 0, removes a case
exactly when a matcher returns -1 on a required parameter, subtracts the
status from the weight when the matcher returns 1 or 0, and leaves both
the case and its weight unchanged on a -1 for an optional parameter
(`survivesFrom` / `sumKeep` state exactly this rule); survivors are
grouped by weight and the groups are sorted by ascending weight, with
every group nonempty and every survivor covered. -/
theorem c3_winnow_and_rank_amended :
    (∀ (m : MatchingSelector) (header : Header),
      m.winnow header = (m.selections.map (fun s => (s, (0 : Int)))).filterMap
        (winnowCaseFun m header 0 m.parameters)) ∧
    (∀ (m : MatchingSelector) (header : Header) mw,
      mw ∈ m.winnow header →
        survivesFrom m header 0 m.parameters mw.1.1 = true ∧
        mw.2 = 0 - sumKeep m header 0 m.parameters mw.1.1 ∧
        mw.1 ∈ m.selections) ∧
    (∀ (m : MatchingSelector) (header : Header) s,
      s ∈ m.selections → survivesFrom m header 0 m.parameters s.1 = true →
        (s, 0 - sumKeep m header 0 m.parameters s.1) ∈ m.winnow header) ∧
    (∀ cases : List ((List MKey × Choice) × Int),
      ((rank_candidates cases).map (fun wg => wg.1)).Pairwise (· ≤ ·)) ∧
    (∀ (cases : List ((List MKey × Choice) × Int)) wg,
      wg ∈ rank_candidates cases →
        wg.2 = (cases.filter (fun c => c.2 == wg.1)).map (fun c => c.1) ∧
        wg.2 ≠ []) ∧
    (∀ (cases : List ((List MKey × Choice) × Int)) c,
      c ∈ cases → ∃ wg ∈ rank_candidates cases, wg.1 = c.2) ∧
    mC3.winnow [("foo", "2.0")] = [(([.str "1.0"], .term "100"), 0)] := by
  refine ⟨winnow_eq, ?_, ?_, rank_candidates_weights_sorted,
    ?_, rank_candidates_covers, by rfl⟩
  · intro m header mw hmw
    rw [winnow_eq] at hmw
    obtain ⟨a, ha, hfa⟩ := List.mem_filterMap.1 hmw
    obtain ⟨s, hs, rfl⟩ := List.mem_map.1 ha
    simp only [winnowCaseFun] at hfa
    by_cases hsv : survivesFrom m header 0 m.parameters s.1 = true
    · rw [if_pos hsv] at hfa
      injection hfa with hfa
      subst hfa
      exact ⟨hsv, rfl, hs⟩
    · rw [if_neg hsv] at hfa
      exact absurd hfa (by simp)
  · intro m header s hs hsv
    rw [winnow_eq]
    apply List.mem_filterMap.2
    refine ⟨(s, 0), List.mem_map_of_mem _ hs, ?_⟩
    simp only [winnowCaseFun]
    rw [if_pos hsv]
  · intro cases wg hwg
    obtain ⟨h1, -, h3⟩ := rank_candidates_mem cases wg hwg
    exact ⟨h1, h3⟩

/-- C5 counterexample: Python 2 compares a `default` relation with itself
as greater (`__cmp__` returns 1 whenever `self.version == "default"`), so
comparison of a relation with itself does not always yield equality and
the comparison is not antisymmetric on `default`; the claimed total-order
property fails at this input. -/
theorem c5_default_self_cmp_counterexample :
    vdefaultRel.cmp vdefaultRel = 1 ∧ vdefaultRel.cmp vdefaultRel ≠ 0 := by
  refine ⟨by decide, by decide⟩

/-- C5 (amended): restricted to relations with numeric version
expressions, `VersionRelation.__cmp__` is a total order (self-comparison
yields 0, comparison is antisymmetric in the three-way sense, a zero
comparison implies equality, and the strict order is transitive and
total); every numeric relation compares less than `default`, and at
equal versions `<` orders strictly before `=`; but `default` compares
greater than every relation including itself, so it is a strict upper
bound without being comparable-reflexive. -/
theorem c5_version_order_amended :
    (∀ (r : String) (q : Rat),
      VersionRelation.cmp ⟨r, .num q⟩ ⟨r, .num q⟩ = 0) ∧
    (∀ (ra rb : String) (qa qb : Rat),
      VersionRelation.cmp ⟨rb, .num qb⟩ ⟨ra, .num qa⟩ =
        -(VersionRelation.cmp ⟨ra, .num qa⟩ ⟨rb, .num qb⟩)) ∧
    (∀ (ra rb : String) (qa qb : Rat),
      VersionRelation.cmp ⟨ra, .num qa⟩ ⟨rb, .num qb⟩ = 0 ↔
        (ra = rb ∧ qa = qb)) ∧
    (∀ (ra rb rc : String) (qa qb qc : Rat),
      VersionRelation.cmp ⟨ra, .num qa⟩ ⟨rb, .num qb⟩ = -1 →
      VersionRelation.cmp ⟨rb, .num qb⟩ ⟨rc, .num qc⟩ = -1 →
      VersionRelation.cmp ⟨ra, .num qa⟩ ⟨rc, .num qc⟩ = -1) ∧
    (∀ (ra rb : String) (qa qb : Rat),
      VersionRelation.cmp ⟨ra, .num qa⟩ ⟨rb, .num qb⟩ = -1 ∨
      VersionRelation.cmp ⟨ra, .num qa⟩ ⟨rb, .num qb⟩ = 0 ∨
      VersionRelation.cmp ⟨ra, .num qa⟩ ⟨rb, .num qb⟩ = 1) ∧
    (∀ b : VersionRelation, vdefaultRel.cmp b = 1) ∧
    (∀ (r : String) (q : Rat),
      VersionRelation.cmp ⟨r, .num q⟩ vdefaultRel = -1) ∧
    (∀ q : Rat, VersionRelation.cmp ⟨"<", .num q⟩ ⟨"=", .num q⟩ = -1) := by
  refine ⟨vr_cmp_self_num, vr_cmp_antisym_num, vr_cmp_zero_iff_num,
    vr_cmp_trans_num, vr_cmp_vals_num, ?_, ?_, ?_⟩
  · intro b
    exact vr_cmp_dflt_left vdefaultRel b rfl
  · intro r q
    exact vr_cmp_dflt_right ⟨r, .num q⟩ vdefaultRel (by simp) rfl
  · intro q
    rw [vr_cmp_num_num]
    simp [lt_irrefl]
    decide



/-- C4: loading a mapping that contains a forbidden construct does not
raise `FormatError`: every node class in `illegal_nodes` is dispatched
through `__getattr__`, whose `visit_Illegal` body evaluates an unbound
name, so the loader raises `NameError` instead.  Shown on the concrete
`badMapping` (an `import` statement in an otherwise well-formed module)
and generically for every illegal node class. -/
theorem c4_illegal_construct_raises_nameerror :
    compile_and_check badMapping =
      .error (.nameError "global name 'visit_Illegal' is not defined") ∧
    (∀ kind ∈ illegal_nodes, ∀ (lineno : Nat) (children : List PyAst),
      visit (.other kind lineno children) =
        .error (.nameError "global name 'visit_Illegal' is not defined")) ∧
    (∀ msg, compile_and_check badMapping ≠ .error (.formatError msg)) := by
  refine ⟨by decide, ?_, ?_⟩
  · intro kind hk lineno children
    simp only [visit]
    rw [if_pos hk]
  · intro msg h
    have hc : compile_and_check badMapping =
        .error (.nameError "global name 'visit_Illegal' is not defined") := by
      decide
    rw [hc] at h
    exact absurd h (by simp)

set_option maxRecDepth 10000 in
/-- C6: with checksum verification not bypassed, `_validate_file_load`
defers to `_check_hash`, which raises `ChecksumError` exactly when the
header has no `sha1sum` entry or when the stored digest differs from the
SHA-1 of the text with every line containing "sha1sum" removed; on the
concrete mapping text the correct digest passes and flipping one byte
makes the check raise `ChecksumError`. -/
theorem c6_checksum_verification :
    (∀ (header : List (String × String)) (text : String),
      (∃ msg, check_hash header text = .error (.checksumError msg)) ↔
        (List.lookup "sha1sum" header = none ∨
          ∃ old, List.lookup "sha1sum" header = some old ∧
            get_checksum text ≠ old)) ∧
    (∀ (header : List (String × String)) (text : String),
      check_hash header text = .ok () ↔
        List.lookup "sha1sum" header = some (get_checksum text)) ∧
    (∀ (attrs : List String) (header : List (String × String))
        (text : String),
      attrs.find? (fun n => (List.lookup n header).isNone) = none →
        validate_file_load attrs header text false = check_hash header text) ∧
    check_hash C6header C6text = .ok () ∧
    check_hash C6header C6textFlipped =
      .error (.checksumError "sha1sum mismatch.") := by
  refine ⟨?_, ?_, ?_, ?_, ?_⟩
  · intro header text
    constructor
    · rintro ⟨msg, hmsg⟩
      cases hl : List.lookup "sha1sum" header with
      | none => exact Or.inl rfl
      | some old =>
        refine Or.inr ⟨old, rfl, ?_⟩
        intro hne
        simp [check_hash, hl, hne] at hmsg
    · rintro (hl | ⟨old, hl, hne⟩)
      · exact ⟨"sha1sum is missing", by simp [check_hash, hl]⟩
      · exact ⟨"sha1sum mismatch.", by simp [check_hash, hl, hne]⟩
  · intro header text
    cases hl : List.lookup "sha1sum" header with
    | none => simp [check_hash, hl]
    | some old =>
      by_cases hne : get_checksum text = old
      · subst hne
        simp [check_hash, hl]
      · simp [check_hash, hl, hne, Ne.symm hne]
  · intro attrs header text hfind
    rw [validate_file_load, hfind]
    simp
  · decide
  · decide

/-- C8: `get_best_references` produces exactly one entry per reftype of
the instrument, records a failing reftype as "NOT FOUND " followed by
the exception message, and still processes every other reftype; shown
concretely on a context with one succeeding and one failing reftype and
generically for every context whose reftype names are distinct. -/
theorem c8_best_references_per_reftype :
    icC8.get_best_references [] =
      [("biasfile", "bias.fits"),
       ("darkfile", "NOT FOUND No selection with time < '1990-01-01'")] ∧
    (∀ (ic : InstrumentContext) (header : Header),
      (ic.selections.map (fun e => e.1)).Nodup → C8Concl ic header) := by
  constructor
  · rfl
  · intro ic header hnd
    have hkeys : (ic.get_best_references header).map (fun e => e.1) =
        ic.selections.map (fun e => e.1) := by
      simp [InstrumentContext.get_best_references, List.map_map, Function.comp]
    refine ⟨hkeys, by rw [hkeys]; exact hnd, ?_⟩
    intro rt f hmem
    constructor
    · intro r hr
      refine List.mem_map.2 ⟨(rt, f), hmem, ?_⟩
      simp [hr]
    · intro e he
      refine List.mem_map.2 ⟨(rt, f), hmem, ?_⟩
      simp [he]


/-- C7: on the doctest Match selector, choose returns "200" for
{foo:'1.0', bar:'2.0'}, returns "200" for {bar:'2.0'} alone (the
absent optional foo drops no case and the exact bar match outweighs the
wildcard), and raises `MissingParameterError` naming 'bar' on the empty
header; in general `validate_query` (run before winnowing) raises
`MissingParameterError` for a missing required parameter and
`BadValueError` for a required parameter whose value is outside its
declared values with no '*' key. -/
theorem c7_match_doctest_and_query_validation :
    m7.choose [("foo", "1.0"), ("bar", "2.0")] = .ok "200" ∧
    m7.choose [("bar", "2.0")] = .ok "200" ∧
    m7.choose [] =
      .error (.missingParameterError "Required parameter 'bar' is missing.") ∧
    (∀ (m : MatchingSelector) (header : Header),
      (∃ p ∈ m.parameters, m.requiredOf p = true ∧
        List.lookup p header = none) →
      (∀ p ∈ m.parameters, m.requiredOf p = true →
        ∀ v, List.lookup p header = some v →
          ((m.valueMap p).contains v = true ∨
            (m.valueMap p).contains "*" = true)) →
      ∃ p0 ∈ m.parameters, m.requiredOf p0 = true ∧
        List.lookup p0 header = none ∧
        m.choose header = .error (.missingParameterError
          ("Required parameter '" ++ p0 ++ "' is missing."))) ∧
    (∀ (m : MatchingSelector) (header : Header),
      (∃ p ∈ m.parameters, m.requiredOf p = true ∧
        ∃ v, List.lookup p header = some v ∧
          (m.valueMap p).contains v = false ∧
            (m.valueMap p).contains "*" = false) →
      (∀ p ∈ m.parameters, m.requiredOf p = true →
        ∃ v, List.lookup p header = some v) →
      ∃ msg, m.choose header = .error (.badValueError msg)) := by
  refine ⟨by decide, by decide, by decide, ?_, ?_⟩
  · intro m header hex hok
    obtain ⟨p0, hp0, hreq, hnone, heq⟩ :=
      validate_queryAux_missing m header m.parameters hex hok
    exact ⟨p0, hp0, hreq, hnone, choose_of_validate_err m header _ heq⟩
  · intro m header hex hok
    obtain ⟨msg, heq⟩ := validate_queryAux_badvalue m header m.parameters hex hok
    exact ⟨msg, choose_of_validate_err m header _ heq⟩


/-- C1: for a Match selector on a header that passes query validation,
choose iterates the weight-ranked candidate groups best-first: a group
of several cases raises `AmbiguousMatchError` immediately, a single
terminal case returns its string, a single nested selector is tried with
`LookupError`-family failures falling through to the next group, and
exhausting the groups raises `MatchingError`. -/
theorem c1_match_ranked_fallthrough (m : MatchingSelector) (header : Header)
    (hv : m.validate_query header = .ok ()) : C1Concl m header := by
  refine ⟨?_, rank_candidates_weights_sorted _, ?_, ?_, ?_, ?_, ?_, rfl⟩
  · simp only [MatchingSelector.choose, hv]
  · intro wg hwg
    exact (rank_candidates_mem _ wg hwg).2.2
  · intro w g rest hg
    simp only [chooseGroups]
    rw [if_pos hg]
  · intro w t s rest
    simp [chooseGroups]
  · intro w t f rest r hf
    simp [chooseGroups, hf]
  · intro w t f rest e hf
    simp [chooseGroups, hf]

theorem c1_match_ranked_fallthrough_witness : C1Concl mC1 headerC1 :=
  c1_match_ranked_fallthrough mC1 headerC1 (by decide)


/-- C2: a UseAfter selector (all of whose stored choices are terminal
strings, as in rmaps) joins the header values of its date parameters
with single spaces, normalizes the result, and returns the value stored
under the greatest key not exceeding that query datetime; when every key
exceeds the query it raises `UseAfterError`. -/
theorem c2_useafter_greatest_key (params : List String)
    (raw : List (String × Choice)) (header : Header) (vals : List String)
    (hvals : lookupAll header (UseAfterSelector.init params raw).parameters =
      some vals)
    (hterm : ∀ s ∈ raw, s.2.isTerm = true) :
    C2Concl (UseAfterSelector.init params raw) header vals := by
  have hs : List.Pairwise (fun a b : String × Choice => pyLe a.1 b.1 = true)
      (UseAfterSelector.init params raw).selections :=
    selectorInit_sorted pyLe pyLe_trans raw
      (pairwise_of_forall raw (fun a b => pyLe_total a.1 b.1))
  have hspec := bsearch_spec (reformat_date (String.intercalate " " vals))
    (UseAfterSelector.init params raw).selections hs
  have hperm : ((UseAfterSelector.init params raw).selections).Perm raw :=
    selectorInit_perm pyLe raw
  constructor
  · intro s hok
    simp only [UseAfterSelector.choose, hvals] at hok
    cases hb : UseAfterSelector.bsearch
        (reformat_date (String.intercalate " " vals))
        (UseAfterSelector.init params raw).selections with
    | error e =>
      simp only [hb] at hok
      exact absurd hok (by simp)
    | ok sel =>
      simp only [hb] at hok
      obtain ⟨hmem, hle, hmax⟩ := hspec.1 sel hb
      have htm : sel.2.isTerm = true := hterm sel (hperm.mem_iff.1 hmem)
      obtain ⟨k, c⟩ := sel
      cases c with
      | sel f => exact absurd htm (by simp [Choice.isTerm])
      | term t =>
        have hok2 : (Except.ok t : Except LookupErr String) = .ok s := hok
        injection hok2 with hok2
        subst hok2
        refine ⟨k, hmem, hle, ?_⟩
        intro kq hkq hkqle
        obtain ⟨q, hq, rfl⟩ := List.mem_map.1 hkq
        exact hmax q hq hkqle
  · intro e herr
    simp only [UseAfterSelector.choose, hvals] at herr
    cases hb : UseAfterSelector.bsearch
        (reformat_date (String.intercalate " " vals))
        (UseAfterSelector.init params raw).selections with
    | error e0 =>
      simp only [hb] at herr
      injection herr with herr
      subst herr
      obtain ⟨hall, hmsg⟩ := hspec.2 e0 hb
      refine ⟨?_, hmsg⟩
      intro kq hkq
      obtain ⟨q, hq, rfl⟩ := List.mem_map.1 hkq
      exact hall q hq
    | ok sel =>
      simp only [hb] at herr
      obtain ⟨hmem, -, -⟩ := hspec.1 sel hb
      have htm : sel.2.isTerm = true := hterm sel (hperm.mem_iff.1 hmem)
      obtain ⟨k, c⟩ := sel
      cases c with
      | sel f => exact absurd htm (by simp [Choice.isTerm])
      | term t =>
        have herr2 : (Except.ok t : Except LookupErr String) = .error e := herr
        exact absurd herr2 (by simp)

theorem c2_useafter_greatest_key_witness :
    C2Concl uC2 headerC2 ["2004-07-02", "08:09:00"] :=
  c2_useafter_greatest_key ["DATE-OBS", "TIME-OBS"]
    [("2004-02-14 00:00:00", .term "A"), ("2004-04-25 21:31:00", .term "B")]
    headerC2 ["2004-07-02", "08:09:00"] (by decide) (by decide)


/-- C9: on the doctest LinearInterpolation selector choose returns
("a","b") at 1.25, ("a","a") at the exact hit 1.2 and ("c","c") at 6.0
past the end; in general the scan stops at the first key not below the
query and choose returns the bracketing pair when strictly bracketed and
an equal pair on an exact hit or off either end. -/
theorem c9_linear_interpolation_bracketing :
    l9.choose [("w", mkRat 5 4)] = .ok ("a", "b") ∧
    l9.choose [("w", mkRat 6 5)] = .ok ("a", "a") ∧
    l9.choose [("w", 6)] = .ok ("c", "c") ∧
    (∀ (l : LinearInterpolationSelector) (header : QHeader) (q : Rat),
      List.lookup l.parameter header = some q →
      l.selections ≠ [] → C9Concl l header q) := by
  refine ⟨by decide, by decide, by decide, ?_⟩
  intro l header q hq hne
  have hlen0 : ¬(l.selections.length = 0) := by
    simpa [List.length_eq_zero] using hne
  refine ⟨?_, ?_, ?_, ?_, ?_⟩
  · intro j hj
    have hjlen : j < l.selections.length :=
      lt_of_lt_of_le hj (List.findIdx_le_length _)
    rw [List.getD_eq_getElem _ _ hjlen]
    have hfalse := List.not_of_lt_findIdx hj
    simpa using hfalse
  · intro hlt
    rw [List.getD_eq_getElem _ _ hlt]
    have htrue : (!decide
        ((l.selections.get ⟨LinearInterpolationSelector.scanIndex q
          l.selections, hlt⟩).1 < q)) = true :=
      @List.findIdx_getElem _ _ _ hlt
    exact le_of_not_lt (by simpa using htrue)
  · intro hidx
    simp only [LinearInterpolationSelector.choose, hq, if_neg hlen0,
      if_pos hidx]
    rw [hidx]
  · rintro ⟨hlt, hdisj⟩
    have hne2 : ¬(LinearInterpolationSelector.scanIndex q l.selections =
        l.selections.length) := Nat.ne_of_lt hlt
    have hcond : (decide (LinearInterpolationSelector.scanIndex q
          l.selections = 0) ||
        decide (q = (l.selections.getD
          (LinearInterpolationSelector.scanIndex q l.selections)
          (0, "")).1)) = true := by
      rw [Bool.or_eq_true]
      rcases hdisj with h | h
      · exact Or.inl (decide_eq_true h)
      · exact Or.inr (decide_eq_true h)
    simp only [LinearInterpolationSelector.choose, hq, if_neg hlen0,
      if_neg hne2, hcond]
    simp
  · rintro ⟨hpos, hlt, hneq⟩
    have hne2 : ¬(LinearInterpolationSelector.scanIndex q l.selections =
        l.selections.length) := Nat.ne_of_lt hlt
    have hcond : (decide (LinearInterpolationSelector.scanIndex q
          l.selections = 0) ||
        decide (q = (l.selections.getD
          (LinearInterpolationSelector.scanIndex q l.selections)
          (0, "")).1)) = false := by
      rw [Bool.or_eq_false_iff]
      exact ⟨decide_eq_false (Nat.pos_iff_ne_zero.1 hpos),
        decide_eq_false hneq⟩
    simp only [LinearInterpolationSelector.choose, hq, if_neg hlen0,
      if_neg hne2, hcond]
    simp


/-- C10: each selector sorts its selections by key at construction and
stores nothing but that sorted permutation, keys() and choices()
enumerate in the stored ascending order, and UseAfter's binary search
returns the greatest key not exceeding the query on the sorted
selections - the property that rests on the sortedness invariant.  (For
VersionDep the raw list may contain at most one `default` relation, the
only configuration on which the Python 2 comparison is an order.) -/
theorem c10_selections_sorted_at_construction (params : List String)
    (rawU : List (String × Choice)) (pl : String)
    (rawL : List (Rat × String)) (rawV : List (VersionRelation × String))
    (hV : List.Pairwise (fun a b : VersionRelation × String =>
      ¬(a.1.version = .dflt ∧ b.1.version = .dflt)) rawV) :
    C10Concl params rawU pl rawL rawV := by
  have hsU : List.Pairwise (fun a b : String × Choice => pyLe a.1 b.1 = true)
      (UseAfterSelector.init params rawU).selections :=
    selectorInit_sorted pyLe pyLe_trans rawU
      (pairwise_of_forall rawU (fun a b => pyLe_total a.1 b.1))
  have hspec := fun date => bsearch_spec date
    (UseAfterSelector.init params rawU).selections hsU
  refine ⟨hsU, selectorInit_perm pyLe rawU, rfl, rfl, ?_,
    selectorInit_perm (fun a b : Rat => decide (a ≤ b)) rawL, ?_,
    selectorInit_perm (fun a b : VersionRelation => decide (a.cmp b ≤ 0)) rawV,
    fun date => (hspec date).1, fun date e he => ((hspec date).2 e he).1⟩
  · have h := selectorInit_sorted (fun a b : Rat => decide (a ≤ b))
      (fun x y z hxy hyz => by
        simp only [decide_eq_true_eq] at hxy hyz ⊢
        exact le_trans hxy hyz)
      rawL
      (pairwise_of_forall rawL (fun a b => by
        rcases le_total a.1 b.1 with h | h
        · exact Or.inl (decide_eq_true h)
        · exact Or.inr (decide_eq_true h)))
    exact h.imp (fun hab => of_decide_eq_true hab)
  · have h := selectorInit_sorted
      (fun a b : VersionRelation => decide (a.cmp b ≤ 0))
      (fun x y z hxy hyz => by
        simp only [decide_eq_true_eq] at hxy hyz ⊢
        exact vrLeB_trans x y z hxy hyz)
      rawV
      (hV.imp (fun hab => by
        rcases vrLeB_total _ _ hab with h | h
        · exact Or.inl (decide_eq_true h)
        · exact Or.inr (decide_eq_true h)))
    exact h.imp (fun hab => of_decide_eq_true hab)

theorem c10_selections_sorted_at_construction_witness :
    C10Concl ["DATE-OBS"] [("2", .term "b"), ("1", .term "a")] "w"
      [(2, "b"), (1, "a")]
      [(⟨"default", .dflt⟩, "y"), (⟨"<", .num 1⟩, "x")] :=
  c10_selections_sorted_at_construction ["DATE-OBS"]
    [("2", .term "b"), ("1", .term "a")] "w" [(2, "b"), (1, "a")]
    [(⟨"default", .dflt⟩, "y"), (⟨"<", .num 1⟩, "x")] (by decide)

end Crds
